import Mathlib

/-!
Verification of the identity-assignment and row-store logic of the
Excel→API sync system (`sync_excel_jira.py`, `api_server.py`).

The Python code is shallowly embedded: JSON/dict rows become association
lists from column name to a `Value`, the pandas table becomes an ordered
column list plus positional rows, and every stateful endpoint becomes a
pure function from the store (plus request data) to the new store and a
response.  Python `str.strip` is modelled by `pyStrip` (ASCII whitespace),
Python truthiness of values by `Value.truthy`, and `str(v)` by
`Value.toPyStr`.
-/

/-- JSON / cell values as they appear in the two scripts: strings, numbers
(integers suffice for the verified properties), booleans, Python `None`
(JSON `null`) and the pandas missing value `NaN`.  `NaN` only occurs inside
the spreadsheet table (the sync script runs `fillna("")` before POSTing). -/
inductive Value where
  | str (s : String)
  | num (n : Int)
  | bool (b : Bool)
  | null
  | nan
deriving DecidableEq, Repr

/-- Python truthiness (`bool(v)`): empty string, zero, `False` and `None`
are falsy; `float("nan")` is truthy. -/
def Value.truthy : Value → Bool
  | .str s => s ≠ ""
  | .num n => n ≠ 0
  | .bool b => b
  | .null => false
  | .nan => true

/-- Python `str(v)` for the values above (pandas renders `NaN` as "nan"). -/
def Value.toPyStr : Value → String
  | .str s => s
  | .num n => toString n
  | .bool b => if b then "True" else "False"
  | .null => "None"
  | .nan => "nan"

/-- Python `str.strip()` on ASCII whitespace: drop leading and trailing
whitespace characters. -/
def pyStrip (s : String) : String :=
  ⟨((s.data.dropWhile Char.isWhitespace).reverse.dropWhile Char.isWhitespace).reverse⟩

/-- Python slicing `s[:n]`. -/
def pyTake (s : String) (n : Nat) : String := ⟨s.data.take n⟩

/-- A row of the store: a Python dict, i.e. an ordered association list
from column name to value (keys are unique in every dict the code builds). -/
abbrev Row := List (String × Value)

/-- `row.get(k)` (default `None`). -/
def rowGet (r : Row) (k : String) : Value := (r.lookup k).getD Value.null

/-- `row.get(k, d)` with an explicit default. -/
def rowGetD (r : Row) (k : String) (d : Value) : Value := (r.lookup k).getD d

/-- Python dict assignment `r[k] = v`: overwrite the entry in place if the
key is present (keeping its position), else append the new entry. -/
def setKey (r : Row) (k : String) (v : Value) : Row :=
  if r.any (fun p => p.1 == k) then
    r.map (fun p => if p.1 == k then (k, v) else p)
  else r ++ [(k, v)]

/-- Python `a or b` specialised to values: `b` when `a` is falsy. -/
def orVal (a b : Value) : Value := if a.truthy then a else b

/-- `_row_id(row)` from `api_server.py`: probe `__id`, `ExternalID`, `ID`,
`id` in order through Python `or` (falsy values are skipped, default `""`),
then `str(...).strip()`. -/
def row_id (r : Row) : String :=
  pyStrip (Value.toPyStr
    (orVal (rowGet r "__id")
      (orVal (rowGet r "ExternalID")
        (orVal (rowGet r "ID")
          (orVal (rowGet r "id") (Value.str ""))))))

/-- `normalize_id` from `api_server.py`: trim. -/
def normalize_id (rid : String) : String := pyStrip rid

/-- `strip_suffix_num` from `api_server.py`: regex match of
`^(.*)-(\d+)$` against `rid.strip()` with greedy `.*`, i.e. split at the
last `-` whose remaining suffix is one or more digits; the returned base is
stripped again.  `None` when the pattern does not match. -/
def strip_suffix_num (rid : String) : Option String :=
  let l := (pyStrip rid).data.reverse
  let ds := l.takeWhile Char.isDigit
  let rest := l.dropWhile Char.isDigit
  if ds ≠ [] ∧ rest.head? = some '-' then some (pyStrip ⟨rest.tail.reverse⟩)
  else none

/-- First index satisfying a predicate (used to render the in-place row
mutation of the Python code as a positional update). -/
def firstIdx (p : α → Bool) : List α → Option Nat
  | [] => none
  | a :: l => if p a then some 0 else (firstIdx p l).map (· + 1)

/-- `find_row_by_id` from `api_server.py`: exact search on normalized
identifiers, then — only when the request carries a `-<digits>` suffix and
the stripped base is truthy (Python `if base:`) — exact search on the base. -/
def find_row_by_id (store : List Row) (rid : String) : Option Row :=
  let q := normalize_id rid
  match store.find? (fun row => row_id row == q) with
  | some row => some row
  | none =>
    match strip_suffix_num q with
    | some base => if base ≠ "" then store.find? (fun row => row_id row == base) else none
    | none => none

/-- Index version of `find_row_by_id`; the Python function returns a live
reference to the dict, which the functional embedding renders as the row's
position in the store. -/
def find_idx_by_id (store : List Row) (rid : String) : Option Nat :=
  let q := normalize_id rid
  match firstIdx (fun row => row_id row == q) store with
  | some i => some i
  | none =>
    match strip_suffix_num q with
    | some base => if base ≠ "" then firstIdx (fun row => row_id row == base) store else none
    | none => none

/-- A JSON value inside the ingest array: an object (dict) or anything else. -/
inductive JVal where
  | obj (r : Row)
  | nonObj
deriving DecidableEq, Repr

/-- The ingest request body: a JSON array or anything else. -/
inductive Json where
  | arr (items : List JVal)
  | nonArr
deriving DecidableEq, Repr

/-- Loop body of `_attach_ids`: annotate each object with `__id`
(fallback `row-<i>` through Python `or` when the probed id is falsy),
raising 400 at the first non-dict element. -/
def attachIdsFrom : List JVal → Nat → Except String (List Row)
  | [], _ => .ok []
  | .nonObj :: _, _ => .error "Each item must be an object"
  | .obj r :: rest, i =>
    let probed := row_id r
    let rid := if probed ≠ "" then probed else "row-" ++ Nat.repr i
    (attachIdsFrom rest (i + 1)).map (fun out => setKey r "__id" (Value.str rid) :: out)

/-- `_attach_ids` from `api_server.py`. -/
def _attach_ids (rows : List JVal) : Except String (List Row) := attachIdsFrom rows 0

/-- Responses of the mutating endpoints, reduced to what the claims need. -/
inductive ApiResult where
  | ok (msg : String)
  | clientError (code : Nat) (detail : String)
deriving DecidableEq, Repr

def API_KEY : String := "my_secret_key"

/-- `_auth_or_401`: the `Authorization` header must equal `Bearer <key>`. -/
def authOk (authorization : Option String) : Bool :=
  authorization == some ("Bearer " ++ API_KEY)

/-- `list_ids` from `api_server.py`. -/
def list_ids (store : List Row) : List String := store.map row_id

/-- `receive_releases` from `api_server.py`, as a function of the current
store: auth check, array check, then `DATA_STORAGE.clear()` followed by
`DATA_STORAGE.extend(_attach_ids(payload))` — the clear precedes the
element validation inside `_attach_ids`, so a failure there leaves the
store empty. -/
def receive_releases (store : List Row) (authorization : Option String)
    (payload : Json) : List Row × ApiResult :=
  if ¬ authOk authorization then (store, .clientError 401 "Unauthorized")
  else
    match payload with
    | .nonArr => (store, .clientError 400 "Expected a list of releases")
    | .arr items =>
      match _attach_ids items with
      | .error e => ([], .clientError 400 e)
      | .ok rows => (rows, .ok (Nat.repr rows.length ++ " lignes reçues."))

/-- `get_row` from `api_server.py`: resolve or answer 404 carrying the
first five known identifiers. -/
def get_row (store : List Row) (rid : String) : Except (String × List String) Row :=
  match find_row_by_id store rid with
  | some row => .ok row
  | none => .error (rid, (list_ids store).take 5)

/-- Truthiness of `EDITABLE_COLUMNS and field not in EDITABLE_COLUMNS`
(`None` and the empty set are both falsy). -/
def ecBlocks (ec : Option (List String)) (field : String) : Bool :=
  match ec with
  | none => false
  | some l => ¬ l.isEmpty ∧ ¬ l.contains field

/-- `patch_cell` from `api_server.py`, parameterised by the
`EDITABLE_COLUMNS` configuration (the module ships `None`, the comment
documents set-valued configurations): auth, then
`field = (body.get("field") or "").strip()`, blank check (400), allow-list
check (403), resolution (404 with a five-id sample), then the in-place
mutation `row[field] = value` with the response id probed from the mutated
row. -/
def patch_cell (ec : Option (List String)) (store : List Row) (rid : String)
    (authorization : Option String) (fieldIn : Option String) (value : Value) :
    List Row × ApiResult :=
  if ¬ authOk authorization then (store, .clientError 401 "Unauthorized")
  else
    let field := pyStrip (fieldIn.getD "")
    if field = "" then (store, .clientError 400 "Missing 'field'")
    else if ecBlocks ec field then
      (store, .clientError 403 ("Field '" ++ field ++ "' not editable"))
    else
      match find_idx_by_id store rid with
      | none =>
        (store, .clientError 404 ("Row '" ++ rid ++ "' not found. Known sample: "
          ++ String.intercalate ", " ((list_ids store).take 5)))
      | some i =>
        match store[i]? with
        | some row => (store.set i (setKey row field value), .ok (row_id (setKey row field value)))
        | none => (store, .clientError 404 ("Row '" ++ rid ++ "' not found."))

/-- `rebuild_ids` from `api_server.py`: in place, re-probe every row and
write the probed id (or the positional fallback) back into `__id`. -/
def rebuild_ids (store : List Row) (authorization : Option String) :
    List Row × ApiResult :=
  if ¬ authOk authorization then (store, .clientError 401 "Unauthorized")
  else
    (store.enum.map (fun p =>
      let probed := row_id p.2
      let rid := if probed ≠ "" then probed else "row-" ++ Nat.repr p.1
      setKey p.2 "__id" (Value.str rid)),
     .ok (Nat.repr store.length))

/-! ## The Identity Assigner (`sync_excel_jira.py`) -/

/-- Decimal digits of a natural number, most significant first; reference
definition used to reason about `Nat.repr` (which `str(n)` of the
de-duplication counter and of the `row-<i>` fallback compiles to). -/
def natDigits (n : Nat) : List Char :=
  if n < 10 then [Nat.digitChar n]
  else natDigits (n / 10) ++ [Nat.digitChar (n % 10)]
decreasing_by exact Nat.div_lt_self (by omega) (by omega)

/-- Numeric value of a decimal digit character. -/
def digitVal (c : Char) : Nat := c.toNat - 48

/-- Decimal decoding of a digit string. -/
def decodeDigits (l : List Char) : Nat := l.foldl (fun a c => a * 10 + digitVal c) 0

/-- `count` of a string in a list (occurrences of one identifier). -/
def idCount (l : List String) (x : String) : Nat := l.count x

/-- The row whose position is `p.1` and pre-de-duplication identifier is
`p.2` after the de-duplication step: rows whose identifier occurs at least
twice in the batch (`duplicated(keep=False)`) get `-<n>` appended, `n`
being the number of earlier occurrences of the same identifier
(`groupby("__id").cumcount()`). -/
def renameDup (ids : List String) (p : Nat × String) : String :=
  if 2 ≤ idCount ids p.2 then p.2 ++ "-" ++ Nat.repr (idCount (ids.take p.1) p.2)
  else p.2

/-- The `__id` column after the uniqueness-enforcement step of
`send_excel_to_api` (`sync_excel_jira.py` lines 87–94): when some
identifier is duplicated, suffix every member of every duplicate group
with its zero-based occurrence index; otherwise the column is untouched. -/
def dedupIds (ids : List String) : List String :=
  if ids.Nodup then ids else ids.enum.map (renameDup ids)

/-- The batches on which suffixing cannot collide with a pre-existing
identifier: no identifier occurring exactly once equals a duplicated
identifier followed by `-` and the decimal numeral of an index below that
group's multiplicity. -/
def DedupSafe (ids : List String) : Prop :=
  ∀ u ∈ ids, idCount ids u = 1 →
    ∀ d ∈ ids, 2 ≤ idCount ids d →
      ∀ k, k < idCount ids d → u ≠ d ++ "-" ++ Nat.repr k

instance (ids : List String) : Decidable (DedupSafe ids) := by
  unfold DedupSafe; infer_instance

/-!
## The Row Store process (`api_server.py`): operation sequences

The store starts empty; every mutating request is one of ingest
(full replace), field patch, or rebuild-identifiers.
-/

/-- The `__id` field of a stored row (first matching dict entry). -/
def storedId (r : Row) : Option Value := r.lookup "__id"

/-- A well-formed stored identifier: a non-empty string that is already
trimmed. -/
def goodIdB (o : Option Value) : Bool :=
  match o with
  | some (Value.str s) => s ≠ "" && (pyStrip s == s)
  | _ => false

/-- Spec invariants (a) and (b) of the Row Store: every row carries a
non-empty (trimmed) string `__id`, and the `__id` values are pairwise
distinct. -/
def StoreInv (store : List Row) : Prop :=
  (∀ r ∈ store, goodIdB (storedId r) = true) ∧ (store.map storedId).Nodup

instance (store : List Row) : Decidable (StoreInv store) := by
  unfold StoreInv; infer_instance

/-- One mutating request of the serving process. -/
inductive Op where
  | ingest (authorization : Option String) (payload : Json)
  | patch (ec : Option (List String)) (rid : String) (authorization : Option String)
      (field : Option String) (value : Value)
  | rebuild (authorization : Option String)

/-- State transition of the store under one request. -/
def applyOp (store : List Row) : Op → List Row
  | .ingest a p => (receive_releases store a p).1
  | .patch ec rid a f v => (patch_cell ec store rid a f v).1
  | .rebuild a => (rebuild_ids store a).1

/-- The store after a sequence of requests, starting from the empty store
of process start-up. -/
def runOps (ops : List Op) : List Row := ops.foldl applyOp []

/-- Requests under which the invariant is preservable: an ingest whose
annotated batch has pairwise-distinct `__id` values, a patch whose
(stripped) field is not `__id` itself, and any rebuild. -/
def opOKB : Op → Bool
  | .ingest _ (.arr items) =>
    match _attach_ids items with
    | .ok rows => decide (rows.map storedId).Nodup
    | .error _ => true
  | .ingest _ .nonArr => true
  | .patch _ _ _ f _ => pyStrip (f.getD "") != "__id"
  | .rebuild _ => true

/-!
## The Identity Assigner's table operations (`sync_excel_jira.py`)
-/

/-- A pandas DataFrame as the claims use it: an ordered list of column
names and positional rows (one cell list per row, parallel to `cols`).
Label-based column access is modelled by the first position of the label,
which coincides with pandas behaviour whenever column names are unique. -/
structure Table where
  cols : List String
  rows : List (List Value)

/-- `str(c).strip().lower()`, the key of `lower_to_orig` (character-wise
ASCII lowering). -/
def lowerKey (c : String) : String := ⟨(pyStrip c).data.map Char.toLower⟩

/-- `lower_to_orig.get(key)`: the dict comprehension keeps the last column
whose stripped lowercase form equals the key. -/
def lowerToOrig (cols : List String) (key : String) : Option String :=
  (cols.filter (fun c => lowerKey c == key)).getLast?

/-- Python truthiness of an optional column name (`None` and `""` falsy). -/
def optTruthy : Option String → Bool
  | none => false
  | some s => s ≠ ""

/-- pandas missing values (`NaN`, `None`), as tested by `notna`. -/
def Value.isNA : Value → Bool
  | .null => true
  | .nan => true
  | _ => false

/-- Column values of the column labelled `c` (positional, first label). -/
def getCol (t : Table) (c : String) : List Value :=
  t.rows.map (fun r => r.getD (t.cols.indexOf c) Value.null)

/-- Column assignment `df[c] = vs`. -/
def setCol (t : Table) (c : String) (vs : List Value) : Table :=
  { cols := t.cols,
    rows := List.zipWith (fun r v => r.set (t.cols.indexOf c) v) t.rows vs }

/-- The `Category`/`Scope` reconciliation of `send_excel_to_api`
(`sync_excel_jira.py` lines 41–56): with both columns present, fill empty
or missing `Category` cells from `Scope` (`where` keeps cells that are
`notna` and whose string form is non-empty); with only `Scope` present,
insert a `Category` copy of it immediately after `Scope`; else no change. -/
def reconcileCategoryScope (t : Table) : Table :=
  let scope_col := lowerToOrig t.cols "scope"
  let category_col := lowerToOrig t.cols "category"
  if optTruthy category_col ∧ optTruthy scope_col then
    let c := category_col.getD ""
    let s := scope_col.getD ""
    setCol t c (List.zipWith
      (fun cv sv => if ¬ cv.isNA ∧ cv.toPyStr ≠ "" then cv else sv)
      (getCol t c) (getCol t s))
  else if optTruthy scope_col ∧ ¬ optTruthy category_col then
    let s := scope_col.getD ""
    let pos := t.cols.indexOf s + 1
    { cols := t.cols.insertIdx pos "Category",
      rows := t.rows.map (fun r => r.insertIdx pos (r.getD (t.cols.indexOf s) Value.null)) }
  else t

/-!
## SHA-1 (`hashlib.sha1`), over natural-number bytes
-/

/-- UTF-8 encoding of one code point. -/
def utf8Char (n : Nat) : List Nat :=
  if n < 128 then [n]
  else if n < 2048 then [192 + n / 64, 128 + n % 64]
  else if n < 65536 then [224 + n / 4096, 128 + (n / 64) % 64, 128 + n % 64]
  else [240 + n / 262144, 128 + (n / 4096) % 64, 128 + (n / 64) % 64, 128 + n % 64]

/-- `base.encode("utf-8")`. -/
def utf8Bytes (s : String) : List Nat := (s.data.map (fun c => utf8Char c.toNat)).flatten

/-- 2^32; SHA-1 words are naturals reduced modulo it. -/
def m32 : Nat := 4294967296

/-- 32-bit left rotation of `x` (for `x < 2^32`, `n ≤ 32`). -/
def rol32 (x n : Nat) : Nat := (x * 2 ^ n + x / 2 ^ (32 - n)) % m32

structure SHA1State where
  h0 : Nat
  h1 : Nat
  h2 : Nat
  h3 : Nat
  h4 : Nat

def sha1Init : SHA1State :=
  ⟨0x67452301, 0xEFCDAB89, 0x98BADCFE, 0x10325476, 0xC3D2E1F0⟩

/-- Big-endian byte serialization of `x` on `n` bytes. -/
def beBytes (n : Nat) (x : Nat) : List Nat :=
  (List.range n).map (fun i => (x >>> (8 * (n - 1 - i))) % 256)

/-- SHA-1 padding: `0x80`, zeros to 56 mod 64, 8-byte bit length. -/
def padMsg (msg : List Nat) : List Nat :=
  msg ++ [128] ++ List.replicate ((119 - msg.length % 64) % 64) 0 ++
    beBytes 8 (8 * msg.length)

/-- Split into 64-byte chunks. -/
def chunks64 : List Nat → List (List Nat)
  | [] => []
  | a :: rest => (a :: rest).take 64 :: chunks64 ((a :: rest).drop 64)
termination_by l => l.length
decreasing_by simp only [List.length_drop, List.length_cons]; omega

/-- Big-endian 32-bit word `i` of a chunk. -/
def word (chunk : List Nat) (i : Nat) : Nat :=
  chunk.getD (4 * i) 0 * 16777216 + chunk.getD (4 * i + 1) 0 * 65536 +
    chunk.getD (4 * i + 2) 0 * 256 + chunk.getD (4 * i + 3) 0

/-- The 80-word message schedule. -/
def schedule (chunk : List Nat) : List Nat :=
  (List.range 80).foldl (fun acc i =>
    if i < 16 then acc ++ [word chunk i]
    else acc ++ [rol32 ((acc.getD (i - 3) 0) ^^^ (acc.getD (i - 8) 0) ^^^
      (acc.getD (i - 14) 0) ^^^ (acc.getD (i - 16) 0)) 1]) []

/-- Round function (`~b` is the 32-bit complement `2^32 - 1 - b`). -/
def sha1F (i b c d : Nat) : Nat :=
  if i < 20 then (b &&& c) ||| ((m32 - 1 - b) &&& d)
  else if i < 40 then b ^^^ c ^^^ d
  else if i < 60 then (b &&& c) ||| (b &&& d) ||| (c &&& d)
  else b ^^^ c ^^^ d

def sha1K (i : Nat) : Nat :=
  if i < 20 then 0x5A827999
  else if i < 40 then 0x6ED9EBA1
  else if i < 60 then 0x8F1BBCDC
  else 0xCA62C1D6

def sha1Round (w : List Nat) (st : Nat × Nat × Nat × Nat × Nat) (i : Nat) :
    Nat × Nat × Nat × Nat × Nat :=
  match st with
  | (a, b, c, d, e) =>
    ((rol32 a 5 + sha1F i b c d + e + sha1K i + w.getD i 0) % m32, a, rol32 b 30, c, d)

def sha1Chunk (st : SHA1State) (chunk : List Nat) : SHA1State :=
  match (List.range 80).foldl (sha1Round (schedule chunk))
      (st.h0, st.h1, st.h2, st.h3, st.h4) with
  | (a, b, c, d, e) =>
    ⟨(st.h0 + a) % m32, (st.h1 + b) % m32, (st.h2 + c) % m32,
      (st.h3 + d) % m32, (st.h4 + e) % m32⟩

/-- The 20 digest bytes. -/
def sha1Digest (msg : List Nat) : List Nat :=
  let fin := (chunks64 (padMsg msg)).foldl sha1Chunk sha1Init
  beBytes 4 fin.h0 ++ beBytes 4 fin.h1 ++ beBytes 4 fin.h2 ++
    beBytes 4 fin.h3 ++ beBytes 4 fin.h4

def hexDigitChar (n : Nat) : Char := "0123456789abcdef".data.getD n 'x'

/-- `hashlib.sha1(s.encode("utf-8")).hexdigest()`. -/
def sha1Hex (s : String) : String :=
  ⟨((sha1Digest (utf8Bytes s)).map
    (fun b => [hexDigitChar (b / 16), hexDigitChar (b % 16)])).flatten⟩

/-!
## Composite identifier derivation (`make_id`, `sync_excel_jira.py` 69–85)
-/

/-- Python `a or b` on strings. -/
def orStr (a b : String) : String := if a ≠ "" then a else b

/-- `make_id(row)`: the three parts (each `str(row.get(col, ""))` when the
column name is truthy, else `""`), the fingerprint of the trimmed parts
joined with `|`, and the final `<application-or-x>-<version-or-na>-<hash>`
using the untrimmed first two parts. -/
def make_id (app_col ver_col sc_col : Option String) (row : Row) : String :=
  let part := fun (o : Option String) =>
    match o with
    | some c => if c ≠ "" then (rowGetD row c (Value.str "")).toPyStr else ""
    | none => ""
  let p0 := part app_col
  let p1 := part ver_col
  let p2 := part sc_col
  let base := pyStrip p0 ++ "|" ++ pyStrip p1 ++ "|" ++ pyStrip p2
  let h := pyTake (sha1Hex base) 10
  orStr p0 "x" ++ "-" ++ orStr p1 "na" ++ "-" ++ h

/-- Python `a or b` on optional column names
(`lower_to_orig.get("category") or lower_to_orig.get("scope")`). -/
def orOptStr (a b : Option String) : Option String := if optTruthy a then a else b

/-- `df.apply(make_id, axis=1)`: each pandas row is keyed by the column
names. -/
def makeIdsForTable (t : Table) : List String :=
  let app_col := lowerToOrig t.cols "application"
  let ver_col := lowerToOrig t.cols "version"
  let sc := orOptStr (lowerToOrig t.cols "category") (lowerToOrig t.cols "scope")
  t.rows.map (fun r => make_id app_col ver_col sc (t.cols.zip r))

/-!
## Supporting lemmas: decimal numerals

`str(n)` in the Python code (the de-duplication counter, the `row-<i>`
fallback) is `Nat.repr`; these lemmas relate it to `natDigits` and prove
the facts the identifier proofs need: every character is a digit, the
numeral is non-empty, and the representation is injective.
-/

theorem toDigitsCore_eq_natDigits : ∀ (fuel n : Nat) (acc : List Char), n < fuel →
    Nat.toDigitsCore 10 fuel n acc = natDigits n ++ acc := by
  intro fuel
  induction fuel with
  | zero => intro n acc h; omega
  | succ f ih =>
    intro n acc h
    by_cases h10 : n / 10 = 0
    · have hlt : n < 10 := by omega
      simp only [Nat.toDigitsCore, h10, if_pos]
      rw [natDigits, if_pos hlt, Nat.mod_eq_of_lt hlt]
      rfl
    · have hge : ¬ n < 10 := by omega
      have hexp : natDigits n = natDigits (n / 10) ++ [Nat.digitChar (n % 10)] := by
        rw [natDigits, if_neg hge]
      simp only [Nat.toDigitsCore, h10, if_neg, ite_false]
      rw [ih (n / 10) _ (by omega), hexp, List.append_assoc]
      rfl

theorem repr_data_eq_natDigits (n : Nat) : (Nat.repr n).data = natDigits n := by
  show (List.asString (Nat.toDigitsCore 10 (n + 1) n [])).data = natDigits n
  rw [toDigitsCore_eq_natDigits (n + 1) n [] (Nat.lt_succ_self n)]
  simp [List.asString]

theorem digitChar_isDigit {m : Nat} (h : m < 10) : (Nat.digitChar m).isDigit = true := by
  interval_cases m <;> decide

theorem digitVal_digitChar {m : Nat} (h : m < 10) : digitVal (Nat.digitChar m) = m := by
  interval_cases m <;> decide

theorem natDigits_all_digit (n : Nat) : ∀ c ∈ natDigits n, c.isDigit = true := by
  induction n using natDigits.induct with
  | case1 n h =>
    rw [natDigits, if_pos h]
    intro c hc
    simp only [List.mem_singleton] at hc
    exact hc ▸ digitChar_isDigit h
  | case2 n h ih =>
    rw [natDigits, if_neg h]
    intro c hc
    rcases List.mem_append.1 hc with h1 | h2
    · exact ih c h1
    · simp only [List.mem_singleton] at h2
      exact h2 ▸ digitChar_isDigit (Nat.mod_lt n (by omega))

theorem natDigits_ne_nil (n : Nat) : natDigits n ≠ [] := by
  rw [natDigits]
  split
  · simp
  · simp

theorem decodeDigits_concat (l : List Char) (c : Char) :
    decodeDigits (l ++ [c]) = decodeDigits l * 10 + digitVal c := by
  simp [decodeDigits, List.foldl_append]

theorem decodeDigits_natDigits (n : Nat) : decodeDigits (natDigits n) = n := by
  induction n using natDigits.induct with
  | case1 n h =>
    rw [natDigits, if_pos h]
    show decodeDigits ([] ++ [Nat.digitChar n]) = n
    rw [decodeDigits_concat]
    simp [decodeDigits, digitVal_digitChar h]
  | case2 n h ih =>
    rw [natDigits, if_neg h, decodeDigits_concat, ih,
      digitVal_digitChar (Nat.mod_lt n (by omega))]
    omega

theorem natRepr_inj {m n : Nat} (h : Nat.repr m = Nat.repr n) : m = n := by
  have hd : natDigits m = natDigits n := by
    rw [← repr_data_eq_natDigits, ← repr_data_eq_natDigits, h]
  have := congrArg decodeDigits hd
  rwa [decodeDigits_natDigits, decodeDigits_natDigits] at this

theorem repr_all_digit (n : Nat) : ∀ c ∈ (Nat.repr n).data, c.isDigit = true := by
  rw [repr_data_eq_natDigits]; exact natDigits_all_digit n

theorem repr_data_ne_nil (n : Nat) : (Nat.repr n).data ≠ [] := by
  rw [repr_data_eq_natDigits]; exact natDigits_ne_nil n

theorem isDigit_ne_dash {c : Char} (h : c.isDigit = true) : c ≠ '-' := by
  intro he; subst he; exact absurd h (by decide)

theorem isDigit_not_ws {c : Char} (h : c.isDigit = true) : c.isWhitespace = false := by
  cases hw : c.isWhitespace
  · rfl
  · exfalso
    have := hw
    simp only [Char.isWhitespace, Bool.or_eq_true, decide_eq_true_eq] at this
    rcases this with ((rfl | rfl) | rfl) | rfl <;> exact absurd h (by decide)

/-!
## Supporting lemmas: splitting at the final dash

An identifier of the form `base ++ "-" ++ <decimal numeral>` determines
`base` and the numeral uniquely, because a numeral contains no `-`.
-/

theorem append_dash_cancel : ∀ (p q s t : List Char), (∀ c ∈ p, c ≠ '-') →
    (∀ c ∈ q, c ≠ '-') → p ++ '-' :: s = q ++ '-' :: t → p = q ∧ s = t := by
  intro p
  induction p with
  | nil =>
    intro q s t _ hq he
    cases q with
    | nil => simpa using he
    | cons b q2 =>
      simp only [List.nil_append, List.cons_append, List.cons.injEq] at he
      exact absurd he.1.symm (hq b (List.mem_cons_self b q2))
  | cons a p2 ih =>
    intro q s t hp hq he
    cases q with
    | nil =>
      simp only [List.cons_append, List.nil_append, List.cons.injEq] at he
      exact absurd he.1 (hp a (List.mem_cons_self a p2))
    | cons b q2 =>
      simp only [List.cons_append, List.cons.injEq] at he
      obtain ⟨rfl, he2⟩ := he
      have := ih q2 s t (fun c hc => hp c (List.mem_cons_of_mem a hc))
        (fun c hc => hq c (List.mem_cons_of_mem a hc)) he2
      exact ⟨by rw [this.1], this.2⟩

theorem data_append_dash (a : String) (r : String) :
    (a ++ "-" ++ r).data = a.data ++ '-' :: r.data := by
  simp only [String.data_append]
  rw [List.append_assoc]
  rfl

theorem append_dash_repr_cancel {a b : String} {m n : Nat}
    (h : a ++ "-" ++ Nat.repr m = b ++ "-" ++ Nat.repr n) : a = b ∧ m = n := by
  have hd : a.data ++ '-' :: (Nat.repr m).data = b.data ++ '-' :: (Nat.repr n).data := by
    rw [← data_append_dash, ← data_append_dash, h]
  have hrev := congrArg List.reverse hd
  simp only [List.reverse_append, List.reverse_cons, List.append_assoc,
    List.singleton_append] at hrev
  have hsplit := append_dash_cancel (Nat.repr m).data.reverse (Nat.repr n).data.reverse
    a.data.reverse b.data.reverse
    (fun c hc => isDigit_ne_dash (repr_all_digit m c (List.mem_reverse.1 hc)))
    (fun c hc => isDigit_ne_dash (repr_all_digit n c (List.mem_reverse.1 hc)))
    hrev
  have h1 : (Nat.repr m).data = (Nat.repr n).data := by
    have := congrArg List.reverse hsplit.1
    simpa using this
  have h2 : a.data = b.data := by
    have := congrArg List.reverse hsplit.2
    simpa using this
  exact ⟨String.ext h2, natRepr_inj (String.ext h1)⟩

/-!
## Supporting lemmas: occurrence counts

`groupby("__id").cumcount()` of a row is the number of earlier occurrences
of its identifier, i.e. `(ids.take i).count ids[i]`.
-/

theorem count_take_lt (ids : List String) (i : Nat) (hi : i < ids.length) (x : String)
    (hx : ids[i] = x) : (ids.take i).count x < ids.count x := by
  have hsplit : ids.count x = (ids.take i).count x + (ids.drop i).count x := by
    conv_lhs => rw [← List.take_append_drop i ids]
    rw [List.count_append]
  have hdrop : ids.drop i = x :: ids.drop (i + 1) := by
    rw [List.drop_eq_getElem_cons hi, hx]
  rw [hdrop, List.count_cons_self] at hsplit
  omega

theorem count_take_lt_self (ids : List String) (i : Nat) (hi : i < ids.length) :
    (ids.take i).count ids[i] < ids.count ids[i] :=
  count_take_lt ids i hi ids[i] rfl

theorem count_take_mono_strict (ids : List String) {i j : Nat} (hij : i < j)
    (hi : i < ids.length) (hj : j < ids.length) :
    (ids.take i).count ids[i] < (ids.take j).count ids[i] := by
  have hj2 : j = i + (j - i) := by omega
  rw [hj2, List.take_add, List.count_append]
  have hmem : ids[i] ∈ (ids.drop i).take (j - i) := by
    rw [List.drop_eq_getElem_cons hi]
    have h1 : j - i = (j - i - 1) + 1 := by omega
    rw [h1, List.take_succ_cons]
    exact List.mem_cons_self _ _
  have hpos : 0 < ((ids.drop i).take (j - i)).count ids[i] := List.count_pos_iff.2 hmem
  omega

theorem two_le_count_of_pair (ids : List String) {i j : Nat} (hij : i < j)
    (hi : i < ids.length) (hj : j < ids.length) (heq : ids[i] = ids[j]) :
    2 ≤ ids.count ids[i] := by
  have h1 := count_take_mono_strict ids hij hi hj
  have h2 := count_take_lt_self ids j hj
  rw [← heq] at h2
  omega

/-!
## C1: uniqueness enforcement of the de-duplication step
-/

theorem renameDup_ne (ids : List String) (H : DedupSafe ids) {i j : Nat} (hij : i < j)
    (hi : i < ids.length) (hj : j < ids.length) :
    renameDup ids (i, ids[i]) ≠ renameDup ids (j, ids[j]) := by
  have hmi : ids[i] ∈ ids := List.getElem_mem hi
  have hmj : ids[j] ∈ ids := List.getElem_mem hj
  simp only [renameDup, idCount]
  by_cases ha : 2 ≤ ids.count ids[i] <;> by_cases hb : 2 ≤ ids.count ids[j]
  · rw [if_pos ha, if_pos hb]
    intro heq
    obtain ⟨heq1, heq2⟩ := append_dash_repr_cancel heq
    have hmono := count_take_mono_strict ids hij hi hj
    rw [heq1] at hmono
    have : (ids.take i).count ids[j] = (ids.take j).count ids[j] := by
      simpa [idCount, heq1] using heq2
    omega
  · rw [if_pos ha, if_neg hb]
    intro heq
    have hcb : ids.count ids[j] = 1 := by
      have := List.count_pos_iff.2 hmj
      omega
    have hk := count_take_lt_self ids i hi
    exact H ids[j] hmj (by simpa [idCount] using hcb) ids[i] hmi (by simpa [idCount] using ha)
      ((ids.take i).count ids[i]) (by simpa [idCount] using hk) heq.symm
  · rw [if_neg ha, if_pos hb]
    intro heq
    have hca : ids.count ids[i] = 1 := by
      have := List.count_pos_iff.2 hmi
      omega
    have hk := count_take_lt_self ids j hj
    exact H ids[i] hmi (by simpa [idCount] using hca) ids[j] hmj (by simpa [idCount] using hb)
      ((ids.take j).count ids[j]) (by simpa [idCount] using hk) heq
  · rw [if_neg ha, if_neg hb]
    intro heq
    have hge : i < ids.length := hi
    exact ha (two_le_count_of_pair ids hij hi hj heq)

/-- C1 (amended): on every `DedupSafe` batch — no once-occurring identifier
equals a duplicated identifier followed by `-<index>` — the de-duplication
step of `send_excel_to_api` produces pairwise-distinct `__id` values. -/
theorem c1_dedup_yields_distinct_ids (ids : List String) (H : DedupSafe ids) :
    (dedupIds ids).Nodup := by
  unfold dedupIds
  split
  · assumption
  · rw [List.nodup_iff_getElem?_ne_getElem?]
    intro i j hij hj
    have hlen : (ids.enum.map (renameDup ids)).length = ids.length := by
      simp [List.enum_length]
    rw [hlen] at hj
    have hi : i < ids.length := lt_trans hij hj
    have hpost : ∀ k, (hk : k < ids.length) →
        (ids.enum.map (renameDup ids))[k]? = some (renameDup ids (k, ids[k])) := by
      intro k hk
      rw [List.getElem?_eq_getElem (by rw [hlen]; exact hk)]
      congr 1
      rw [List.getElem_map]
      congr 1
      exact List.getElem_enum ids k (by simpa [List.enum_length] using hk)
    rw [hpost i hi, hpost j hj]
    intro hcon
    exact renameDup_ne ids H hij hi hj (Option.some_inj.1 hcon)

/-- C1 counterexample: in the batch `["a", "a", "a-0"]` a pre-existing
identifier equals another identifier followed by `-<digits>`; after the
de-duplication step two rows carry `__id = "a-0"`, so the claimed
uniqueness for all such batches is false. -/
theorem c1_counterexample :
    dedupIds ["a", "a", "a-0"] = ["a-0", "a-1", "a-0"] ∧
      ¬ (dedupIds ["a", "a", "a-0"]).Nodup := by decide

/-- C1 witness: the amended theorem applied to the concrete safe batch
`["a", "a", "b"]`. -/
theorem c1_witness : DedupSafe ["a", "a", "b"] ∧ (dedupIds ["a", "a", "b"]).Nodup :=
  ⟨by decide, c1_dedup_yields_distinct_ids ["a", "a", "b"] (by decide)⟩

/-!
## Supporting lemmas: `pyStrip`

A string is a fixed point of `pyStrip` exactly when its first and last
characters are not whitespace; appending `-<numeral>` to a fixed point
yields a fixed point.
-/

theorem pyStrip_data (s : String) : (pyStrip s).data =
    ((s.data.dropWhile Char.isWhitespace).reverse.dropWhile Char.isWhitespace).reverse := rfl

theorem dropWhile_eq_self_of_head (l : List Char) (p : Char → Bool)
    (h : ∀ c ∈ l.head?, p c = false) : l.dropWhile p = l := by
  cases l with
  | nil => rfl
  | cons a t =>
    have ha : p a = false := h a rfl
    simp [List.dropWhile_cons, ha]

theorem head_false_of_dropWhile_eq_self (l : List Char) (p : Char → Bool)
    (h : l.dropWhile p = l) : ∀ c ∈ l.head?, p c = false := by
  intro c hc
  cases l with
  | nil => cases hc
  | cons a t =>
    have hca : a = c := by simpa using hc
    subst hca
    by_contra hp
    have hp2 : p a = true := by
      cases hpc : p a
      · exact absurd hpc hp
      · rfl
    rw [List.dropWhile_cons_of_pos hp2] at h
    have hle : (t.dropWhile p).length ≤ t.length := (List.dropWhile_suffix p).length_le
    have := congrArg List.length h
    simp at this
    omega

theorem pyStrip_eq_self (s : String)
    (h1 : ∀ c ∈ s.data.head?, c.isWhitespace = false)
    (h2 : ∀ c ∈ s.data.getLast?, c.isWhitespace = false) : pyStrip s = s := by
  apply String.ext
  show ((s.data.dropWhile Char.isWhitespace).reverse.dropWhile Char.isWhitespace).reverse = s.data
  rw [dropWhile_eq_self_of_head s.data Char.isWhitespace h1]
  rw [dropWhile_eq_self_of_head s.data.reverse Char.isWhitespace
    (by rw [List.head?_reverse]; exact h2)]
  exact List.reverse_reverse s.data

theorem pyStrip_fixed_conditions (s : String) (h : pyStrip s = s) :
    (∀ c ∈ s.data.head?, c.isWhitespace = false) ∧
      (∀ c ∈ s.data.getLast?, c.isWhitespace = false) := by
  have hd : ((s.data.dropWhile Char.isWhitespace).reverse.dropWhile
      Char.isWhitespace).reverse = s.data := congrArg String.data h
  have hlenA : (s.data.dropWhile Char.isWhitespace).length ≤ s.data.length :=
    (List.dropWhile_suffix Char.isWhitespace).length_le
  have hlenB : ((s.data.dropWhile Char.isWhitespace).reverse.dropWhile
      Char.isWhitespace).length ≤ (s.data.dropWhile Char.isWhitespace).reverse.length :=
    (List.dropWhile_suffix Char.isWhitespace).length_le
  have hlen := congrArg List.length hd
  simp only [List.length_reverse] at hlen hlenB
  have hA : s.data.dropWhile Char.isWhitespace = s.data :=
    (List.dropWhile_suffix Char.isWhitespace).eq_of_length (by omega)
  have hB : (s.data.dropWhile Char.isWhitespace).reverse.dropWhile Char.isWhitespace =
      (s.data.dropWhile Char.isWhitespace).reverse :=
    (List.dropWhile_suffix Char.isWhitespace).eq_of_length (by simp; omega)
  rw [hA] at hB
  refine ⟨head_false_of_dropWhile_eq_self _ _ hA, ?_⟩
  have := head_false_of_dropWhile_eq_self _ _ hB
  rwa [List.head?_reverse] at this

theorem mem_getLast?_of_suffix {l1 l2 : List Char} (h : l1 <:+ l2) {c : Char}
    (hc : c ∈ l1.getLast?) : c ∈ l2.getLast? := by
  obtain ⟨t, ht⟩ := h
  rw [← ht, List.getLast?_append]
  cases hB : l1.getLast? with
  | none => rw [hB] at hc; cases hc
  | some x => rw [hB] at hc; simpa using hc

theorem ws_false_of_mem_head?_dropWhile (l : List Char) {c : Char}
    (hc : c ∈ (l.dropWhile Char.isWhitespace).head?) : c.isWhitespace = false := by
  have hnot := List.head?_dropWhile_not Char.isWhitespace l
  revert hnot
  cases hh : (l.dropWhile Char.isWhitespace).head? with
  | none => rw [hh] at hc; cases hc
  | some x =>
    rw [hh] at hc
    have hcx : x = c := by simpa using hc
    subst hcx
    intro hnot
    simpa using hnot

theorem pyStrip_idem (s : String) : pyStrip (pyStrip s) = pyStrip s := by
  apply pyStrip_eq_self
  · intro c hc
    rw [pyStrip_data, List.head?_reverse] at hc
    have hlast : c ∈ (s.data.dropWhile Char.isWhitespace).reverse.getLast? :=
      mem_getLast?_of_suffix (List.dropWhile_suffix Char.isWhitespace) hc
    rw [List.getLast?_reverse] at hlast
    exact ws_false_of_mem_head?_dropWhile s.data hlast
  · intro c hc
    rw [pyStrip_data, List.getLast?_reverse] at hc
    exact ws_false_of_mem_head?_dropWhile _ hc

/-!
## Supporting lemmas: trimmed identifiers with numeral suffixes
-/

theorem pyStrip_append_dash_repr (s : String) (hs : pyStrip s = s) (k : Nat) :
    pyStrip (s ++ "-" ++ Nat.repr k) = s ++ "-" ++ Nat.repr k := by
  obtain ⟨hh, hl⟩ := pyStrip_fixed_conditions s hs
  apply pyStrip_eq_self
  · intro c hc
    rw [data_append_dash, List.head?_append] at hc
    cases hsd : s.data.head? with
    | some x =>
      rw [hsd] at hc
      have hcx : x = c := by simpa using hc
      subst hcx
      exact hh x (by rw [hsd]; rfl)
    | none =>
      rw [hsd] at hc
      have hcd : '-' = c := by simpa using hc
      rw [← hcd]
      decide
  · intro c hc
    rw [data_append_dash, List.getLast?_append] at hc
    have hrd : (Nat.repr k).data ≠ [] := repr_data_ne_nil k
    have h1 : ('-' :: (Nat.repr k).data).getLast? = (Nat.repr k).data.getLast? := by
      show (['-'] ++ (Nat.repr k).data).getLast? = _
      rw [List.getLast?_append]
      cases hg : (Nat.repr k).data.getLast? with
      | none => exact absurd (List.getLast?_eq_none_iff.1 hg) hrd
      | some x => rfl
    rw [h1] at hc
    cases hg : (Nat.repr k).data.getLast? with
    | none => exact absurd (List.getLast?_eq_none_iff.1 hg) hrd
    | some x =>
      rw [hg] at hc
      have hcx : x = c := by simpa using hc
      subst hcx
      exact isDigit_not_ws (repr_all_digit k x (List.mem_of_getLast?_eq_some hg))

theorem row_fallback_split (i : Nat) : "row-" ++ Nat.repr i = "row" ++ "-" ++ Nat.repr i := by
  apply String.ext
  simp [String.data_append]

theorem pyStrip_row_fallback (i : Nat) :
    pyStrip ("row-" ++ Nat.repr i) = "row-" ++ Nat.repr i := by
  rw [row_fallback_split]
  exact pyStrip_append_dash_repr "row" (by decide) i

theorem row_fallback_ne_empty (i : Nat) : "row-" ++ Nat.repr i ≠ "" := by
  intro h
  have := congrArg String.data h
  rw [String.data_append] at this
  simp at this

/-!
## Supporting lemmas: dict update (`setKey`) and `__id` lookups
-/

theorem lookup_map_overwrite (k : String) (v : Value) : ∀ (r : Row),
    r.any (fun p => p.1 == k) = true →
      (r.map (fun p => if p.1 == k then (k, v) else p)).lookup k = some v := by
  intro r
  induction r with
  | nil => intro h; cases h
  | cons p t ih =>
    obtain ⟨pk, pv⟩ := p
    intro h
    by_cases hp : pk = k
    · have hbeq : (pk == k) = true := by simpa using hp
      rw [List.map_cons]
      simp only [hbeq, if_true, if_pos]
      exact List.lookup_cons_self
    · have hbeq : (pk == k) = false := by simpa using hp
      have ht : t.any (fun q => q.1 == k) = true := by
        rcases List.any_eq_true.1 h with ⟨q, hq, hqk⟩
        rcases List.mem_cons.1 hq with rfl | hq2
        · have h5 : (pk == k) = true := hqk
          rw [hbeq] at h5
          exact absurd h5 (by decide)
        · exact List.any_eq_true.2 ⟨q, hq2, hqk⟩
      have hkpk : (k == pk) = false := by
        rw [beq_eq_false_iff_ne]
        exact fun he => hp he.symm
      rw [List.map_cons]
      simp only [hbeq, Bool.false_eq_true, if_false]
      rw [List.lookup_cons, hkpk]
      exact ih ht

theorem lookup_append_new (k : String) (v : Value) : ∀ (r : Row),
    r.any (fun p => p.1 == k) = false → (r ++ [(k, v)]).lookup k = some v := by
  intro r
  induction r with
  | nil => simp
  | cons p t ih =>
    obtain ⟨pk, pv⟩ := p
    intro h
    simp only [List.any_cons] at h
    have h1 : (pk == k) = false := by
      cases hor : (pk == k)
      · rfl
      · rw [hor, Bool.true_or] at h; cases h
    have h2 : t.any (fun q => q.1 == k) = false := by
      cases hor : t.any (fun q => q.1 == k)
      · rfl
      · rw [hor, Bool.or_true] at h; cases h
    have hkpk : (k == pk) = false := by
      rw [beq_eq_false_iff_ne]
      intro he
      rw [beq_eq_false_iff_ne] at h1
      exact h1 he.symm
    rw [List.cons_append, List.lookup_cons, hkpk]
    exact ih h2

theorem lookup_setKey_self (r : Row) (k : String) (v : Value) :
    (setKey r k v).lookup k = some v := by
  unfold setKey
  by_cases h : r.any (fun p => p.1 == k) = true
  · rw [if_pos h]
    exact lookup_map_overwrite k v r h
  · rw [if_neg h]
    refine lookup_append_new k v r ?_
    cases hb : r.any (fun p => p.1 == k)
    · rfl
    · exact absurd hb h

theorem lookup_map_ne (k k2 : String) (v : Value) (h : k2 ≠ k) : ∀ (r : Row),
    (r.map (fun p => if p.1 == k then (k, v) else p)).lookup k2 = r.lookup k2 := by
  intro r
  induction r with
  | nil => rfl
  | cons p t ih =>
    obtain ⟨pk, pv⟩ := p
    rw [List.map_cons]
    by_cases hp : pk = k
    · have hbeq : (pk == k) = true := by simpa using hp
      simp only [hbeq, if_true, if_pos]
      rw [List.lookup_cons, List.lookup_cons]
      have h1 : (k2 == k) = false := by simpa using h
      have h2 : (k2 == pk) = false := by rw [hp]; exact h1
      rw [h1, h2]
      exact ih
    · have hbeq : (pk == k) = false := by simpa using hp
      simp only [hbeq, Bool.false_eq_true, if_false]
      rw [List.lookup_cons, List.lookup_cons]
      cases hk2p : (k2 == pk)
      · exact ih
      · rfl

theorem lookup_append_ne (k k2 : String) (v : Value) (h : k2 ≠ k) : ∀ (r : Row),
    (r ++ [(k, v)]).lookup k2 = r.lookup k2 := by
  intro r
  induction r with
  | nil =>
    have h1 : (k2 == k) = false := by simpa using h
    rw [List.nil_append, List.lookup_cons, h1]
  | cons p t ih =>
    obtain ⟨pk, pv⟩ := p
    rw [List.cons_append, List.lookup_cons, List.lookup_cons]
    cases hk2p : (k2 == pk)
    · exact ih
    · rfl

theorem lookup_setKey_ne (r : Row) (k k2 : String) (v : Value) (h : k2 ≠ k) :
    (setKey r k v).lookup k2 = r.lookup k2 := by
  unfold setKey
  by_cases hany : r.any (fun p => p.1 == k) = true
  · rw [if_pos hany]
    exact lookup_map_ne k k2 v h r
  · rw [if_neg hany]
    exact lookup_append_ne k k2 v h r

theorem storedId_setKey_self (r : Row) (v : Value) :
    storedId (setKey r "__id" v) = some v :=
  lookup_setKey_self r "__id" v

theorem storedId_setKey_ne (r : Row) (k : String) (v : Value) (h : k ≠ "__id") :
    storedId (setKey r k v) = storedId r :=
  lookup_setKey_ne r k "__id" v (fun he => h he.symm)

theorem set_getElem?_self_eq (l : List α) (i : Nat) (x : α) (hx : l[i]? = some x) :
    l.set i x = l := by
  apply List.ext_getElem?
  intro n
  by_cases hn : i = n
  · subst hn
    rcases List.getElem?_eq_some_iff.1 hx with ⟨hi, hv⟩
    rw [List.getElem?_set_self hi, hx]
  · rw [List.getElem?_set_ne hn]

/-!
## Supporting lemmas: the annotated identifiers of ingest and rebuild
-/

theorem row_id_trimmed (r : Row) : pyStrip (row_id r) = row_id r := pyStrip_idem _

theorem goodIdB_iff (s : String) :
    goodIdB (some (Value.str s)) = true ↔ s ≠ "" ∧ pyStrip s = s := by
  simp [goodIdB]

theorem goodIdB_attach_rid (r : Row) (i : Nat) :
    goodIdB (some (Value.str
      (if row_id r ≠ "" then row_id r else "row-" ++ Nat.repr i))) = true := by
  rw [goodIdB_iff]
  by_cases h : row_id r = ""
  · rw [if_neg (by simpa using h)]
    exact ⟨row_fallback_ne_empty i, pyStrip_row_fallback i⟩
  · rw [if_pos h]
    exact ⟨h, row_id_trimmed r⟩

theorem attachIdsFrom_ok_good : ∀ (items : List JVal) (i : Nat) (rows : List Row),
    attachIdsFrom items i = .ok rows → ∀ r ∈ rows, goodIdB (storedId r) = true := by
  intro items
  induction items with
  | nil =>
    intro i rows h r hr
    have h2 : Except.ok ([] : List Row) = Except.ok rows := h
    have : ([] : List Row) = rows := Except.ok.inj h2
    rw [← this] at hr
    cases hr
  | cons v rest ih =>
    intro i rows h r hr
    cases v with
    | nonObj => cases h
    | obj r0 =>
      simp only [attachIdsFrom] at h
      cases hrest : attachIdsFrom rest (i + 1) with
      | error e => rw [hrest] at h; cases h
      | ok out =>
        rw [hrest] at h
        simp only [Except.map] at h
        have hrows : setKey r0 "__id" (Value.str
            (if row_id r0 ≠ "" then row_id r0 else "row-" ++ Nat.repr i)) :: out = rows :=
          Except.ok.inj h
        rw [← hrows] at hr
        rcases List.mem_cons.1 hr with rfl | hr2
        · rw [storedId_setKey_self]
          exact goodIdB_attach_rid r0 i
        · exact ih (i + 1) out hrest r hr2

theorem storeInv_empty : StoreInv [] :=
  ⟨fun r hr => absurd hr (List.not_mem_nil r), List.nodup_nil⟩

theorem storeInv_of_map_eq (store store2 : List Row)
    (h : store2.map storedId = store.map storedId) (hInv : StoreInv store) :
    StoreInv store2 := by
  constructor
  · intro r hr
    have hmem : storedId r ∈ store2.map storedId := List.mem_map_of_mem _ hr
    rw [h] at hmem
    rcases List.mem_map.1 hmem with ⟨r0, hr0, he⟩
    rw [← he]
    exact hInv.1 r0 hr0
  · rw [h]
    exact hInv.2

theorem storeInv_receive (store : List Row) (a : Option String) (p : Json)
    (hInv : StoreInv store) (hok : opOKB (Op.ingest a p) = true) :
    StoreInv ((receive_releases store a p).1) := by
  unfold receive_releases
  split
  · exact hInv
  · cases p with
    | nonArr => exact hInv
    | arr items =>
      simp only []
      cases hatt : _attach_ids items with
      | error e => exact storeInv_empty
      | ok rows =>
        simp only [opOKB, hatt] at hok
        constructor
        · exact attachIdsFrom_ok_good items 0 rows hatt
        · exact of_decide_eq_true hok

theorem patch_keeps_stored_ids (ec : Option (List String)) (store : List Row) (rid : String)
    (a : Option String) (f : Option String) (v : Value)
    (hf : pyStrip (f.getD "") ≠ "__id") :
    ((patch_cell ec store rid a f v).1).map storedId = store.map storedId := by
  unfold patch_cell
  split
  · rfl
  · simp only []
    split
    · rfl
    · split
      · rfl
      · split
        · rfl
        · rename_i i heq
          cases hrow : store[i]? with
          | none => rfl
          | some row =>
            show (store.set i (setKey row (pyStrip (f.getD "")) v)).map storedId =
              store.map storedId
            simp only [List.map_set]
            apply set_getElem?_self_eq
            rw [List.getElem?_map, hrow, Option.map_some']
            rw [storedId_setKey_ne row _ v hf]

theorem row_id_of_storedId (r : Row) (s : String) (hs : storedId r = some (Value.str s))
    (hne : s ≠ "") (htrim : pyStrip s = s) : row_id r = s := by
  have htr : (Value.str s).truthy = true := by
    simp [Value.truthy, hne]
  unfold row_id rowGet
  rw [show r.lookup "__id" = some (Value.str s) from hs]
  rw [Option.getD_some, orVal, if_pos htr]
  exact htrim

theorem rebuild_keeps_stored_ids (store : List Row) (a : Option String)
    (hInv : StoreInv store) :
    ((rebuild_ids store a).1).map storedId = store.map storedId := by
  unfold rebuild_ids
  split
  · rfl
  · simp only []
    apply List.ext_getElem?
    intro n
    rw [List.getElem?_map, List.getElem?_map, List.getElem?_map, List.getElem?_enum]
    cases hrow : store[n]? with
    | none => rfl
    | some row =>
      simp only [Option.map_some']
      congr 1
      have hmem : row ∈ store := List.getElem?_mem hrow
      have hgood := hInv.1 row hmem
      unfold goodIdB at hgood
      cases hsid : storedId row with
      | none => rw [hsid] at hgood; cases hgood
      | some val =>
        cases val with
        | str s =>
          rw [hsid] at hgood
          simp only [Bool.and_eq_true, beq_iff_eq, decide_eq_true_eq] at hgood
          obtain ⟨hne, htrim⟩ := hgood
          have hrid : row_id row = s := row_id_of_storedId row s hsid hne htrim
          rw [hrid]
          rw [if_pos (by simpa using hne)]
          rw [storedId_setKey_self]
        | num m => rw [hsid] at hgood; cases hgood
        | bool b => rw [hsid] at hgood; cases hgood
        | null => rw [hsid] at hgood; cases hgood
        | nan => rw [hsid] at hgood; cases hgood

theorem storeInv_applyOp (store : List Row) (op : Op) (hInv : StoreInv store)
    (hok : opOKB op = true) : StoreInv (applyOp store op) := by
  cases op with
  | ingest a p => exact storeInv_receive store a p hInv hok
  | patch ec rid a f v =>
    have hf : pyStrip (f.getD "") ≠ "__id" := by
      simpa [opOKB] using hok
    exact storeInv_of_map_eq store _ (patch_keeps_stored_ids ec store rid a f v hf) hInv
  | rebuild a =>
    exact storeInv_of_map_eq store _ (rebuild_keeps_stored_ids store a hInv) hInv

/-!
## C2: the Row Store invariant over operation sequences
-/

/-- C2 (amended): starting from the empty store, the invariant — every
stored row has a non-empty string `__id` and the `__id` values are pairwise
distinct — holds after every sequence of mutating operations in which each
patch targets a field other than `__id` and each accepted ingest batch is
annotated with pairwise-distinct identifiers.  (Payloads mixing natural
`row-<k>` identifiers with identifier-less rows can violate distinctness,
and a patch of the `__id` field itself can blank it.) -/
theorem c2_store_invariant (ops : List Op) (h : ∀ op ∈ ops, opOKB op = true) :
    StoreInv (runOps ops) := by
  suffices haux : ∀ (ops2 : List Op) (s : List Row), StoreInv s →
      (∀ op ∈ ops2, opOKB op = true) → StoreInv (ops2.foldl applyOp s) from
    haux ops [] storeInv_empty h
  intro ops2
  induction ops2 with
  | nil => intro s hs _; exact hs
  | cons op rest ih =>
    intro s hs hall
    rw [List.foldl_cons]
    exact ih _ (storeInv_applyOp s op hs (hall op (List.mem_cons_self op rest)))
      (fun o ho => hall o (List.mem_cons_of_mem op ho))

/-- C2 counterexample: ingesting the payload
`[{"ID": "row-1"}, {}]` — a natural identifier of the form `row-<k>` mixed
with a row lacking any identifier — stores two rows that both carry
`__id = "row-1"`, violating invariant (b). -/
theorem c2_counterexample :
    (runOps [Op.ingest (some "Bearer my_secret_key")
        (Json.arr [JVal.obj [("ID", Value.str "row-1")], JVal.obj []])]).map storedId =
      [some (Value.str "row-1"), some (Value.str "row-1")] ∧
    ¬ StoreInv (runOps [Op.ingest (some "Bearer my_secret_key")
        (Json.arr [JVal.obj [("ID", Value.str "row-1")], JVal.obj []])]) := by decide

/-- C2 witness: the amended theorem applied to a concrete sequence with one
ingest (distinct annotated identifiers), one patch of a non-`__id` field
and one rebuild. -/
theorem c2_witness :
    (∀ op ∈ [Op.ingest (some "Bearer my_secret_key")
        (Json.arr [JVal.obj [("__id", Value.str "a")], JVal.obj []]),
      Op.patch none "a" (some "Bearer my_secret_key") (some "STATUS") (Value.str "x"),
      Op.rebuild (some "Bearer my_secret_key")], opOKB op = true) ∧
    StoreInv (runOps [Op.ingest (some "Bearer my_secret_key")
        (Json.arr [JVal.obj [("__id", Value.str "a")], JVal.obj []]),
      Op.patch none "a" (some "Bearer my_secret_key") (some "STATUS") (Value.str "x"),
      Op.rebuild (some "Bearer my_secret_key")]) :=
  ⟨by decide, c2_store_invariant _ (by decide)⟩

/-!
## C4: what a rejected ingest does to the store
-/

/-- C4 (amended): a rejected ingest leaves the store untouched only when
the body is not an array; when the body is an array containing a non-object
element, the store has already been cleared (`DATA_STORAGE.clear()` runs
before `_attach_ids` validates the elements), so the failed request leaves
the store empty rather than in its prior state. -/
theorem c4_ingest_failure_states (store : List Row) (a : Option String) (payload : Json)
    (ha : authOk a = true) :
    (payload = Json.nonArr → (receive_releases store a payload).1 = store) ∧
    (∀ items e, payload = Json.arr items → _attach_ids items = Except.error e →
      (receive_releases store a payload).1 = []) := by
  constructor
  · intro h
    subst h
    unfold receive_releases
    rw [if_neg (by simp [ha])]
  · intro items e hp hatt
    subst hp
    unfold receive_releases
    rw [if_neg (by simp [ha])]
    simp only [hatt]

/-- C4 counterexample: with one row stored, an ingest rejected because an
array element is not an object leaves the store empty, not in its prior
one-row state. -/
theorem c4_counterexample :
    receive_releases [[("__id", Value.str "a")]] (some "Bearer my_secret_key")
        (Json.arr [JVal.nonObj]) =
      ([], ApiResult.clientError 400 "Each item must be an object") ∧
    ([[("__id", Value.str "a")]] : List Row) ≠ [] := by decide

/-- C4 witness: the amended theorem applied at a one-row store, a valid
bearer token, and the payload `[<non-object>]`. -/
theorem c4_witness :
    authOk (some "Bearer my_secret_key") = true ∧
    (receive_releases [[("__id", Value.str "a")]] (some "Bearer my_secret_key")
      Json.nonArr).1 = [[("__id", Value.str "a")]] ∧
    (receive_releases [[("__id", Value.str "a")]] (some "Bearer my_secret_key")
      (Json.arr [JVal.nonObj])).1 = [] := by
  refine ⟨by decide, ?_, ?_⟩
  · exact (c4_ingest_failure_states [[("__id", Value.str "a")]]
      (some "Bearer my_secret_key") Json.nonArr (by decide)).1 rfl
  · exact (c4_ingest_failure_states [[("__id", Value.str "a")]]
      (some "Bearer my_secret_key") (Json.arr [JVal.nonObj]) (by decide)).2
      [JVal.nonObj] "Each item must be an object" rfl rfl

/-!
## C5: patch and the `__id` field
-/

/-- C5 (amended): for every patch whose (stripped) field name differs from
`__id`, the `__id` field of every stored row is unchanged by the operation
— whether the request succeeds or is rejected.  Patching the field `__id`
itself (accepted by the validation, since only blankness and the allow-list
are checked) does rewrite the identifier. -/
theorem c5_patch_never_changes_other_ids (ec : Option (List String)) (store : List Row)
    (rid : String) (a : Option String) (f : Option String) (v : Value)
    (hf : pyStrip (f.getD "") ≠ "__id") :
    ((patch_cell ec store rid a f v).1).map storedId = store.map storedId :=
  patch_keeps_stored_ids ec store rid a f v hf

/-- C5 counterexample: the field name `__id` passes the patch validation
(non-blank, no allow-list configured) and resolves, and the patch rewrites
the row's `__id` from `"a"` to `"b"`. -/
theorem c5_counterexample :
    patch_cell none [[("__id", Value.str "a")]] "a" (some "Bearer my_secret_key")
        (some "__id") (Value.str "b") =
      ([[("__id", Value.str "b")]], ApiResult.ok "b") ∧
    ([[("__id", Value.str "a")]] : List Row).map storedId ≠
      ([[("__id", Value.str "b")]] : List Row).map storedId := by decide

/-- C5 witness: the amended theorem applied to a concrete patch of the
`STATUS` field. -/
theorem c5_witness :
    pyStrip ((some "STATUS").getD "") ≠ "__id" ∧
    ((patch_cell none [[("__id", Value.str "a")]] "a" (some "Bearer my_secret_key")
        (some "STATUS") (Value.str "done")).1).map storedId =
      ([[("__id", Value.str "a")]] : List Row).map storedId :=
  ⟨by decide, c5_patch_never_changes_other_ids none [[("__id", Value.str "a")]] "a"
    (some "Bearer my_secret_key") (some "STATUS") (Value.str "done") (by decide)⟩

/-!
## C7: idempotence of the full-replace ingest
-/

theorem attachIdsFrom_ok_of_objs : ∀ (items : List JVal) (i : Nat),
    (∀ v ∈ items, v ≠ JVal.nonObj) → ∃ rows, attachIdsFrom items i = Except.ok rows := by
  intro items
  induction items with
  | nil => intro i _; exact ⟨[], rfl⟩
  | cons v rest ih =>
    intro i hobj
    cases v with
    | nonObj => exact absurd rfl (hobj JVal.nonObj (List.mem_cons_self _ _))
    | obj r0 =>
      obtain ⟨out, hout⟩ := ih (i + 1) (fun w hw => hobj w (List.mem_cons_of_mem _ hw))
      exact ⟨setKey r0 "__id" (Value.str
          (if row_id r0 ≠ "" then row_id r0 else "row-" ++ Nat.repr i)) :: out,
        by simp only [attachIdsFrom, hout, Except.map]⟩

/-- C7: for every payload accepted by validation (a JSON array all of whose
elements are objects) and authorized request, ingesting twice is the same
as ingesting once: the second call returns the identical store (same rows,
same order, same `__id`s) and the identical response. -/
theorem c7_ingest_idempotent (store : List Row) (a : Option String) (items : List JVal)
    (ha : authOk a = true) (hobj : ∀ v ∈ items, v ≠ JVal.nonObj) :
    receive_releases ((receive_releases store a (Json.arr items)).1) a (Json.arr items) =
      receive_releases store a (Json.arr items) := by
  obtain ⟨rows, hrows⟩ := attachIdsFrom_ok_of_objs items 0 hobj
  have hgen : ∀ s : List Row, receive_releases s a (Json.arr items) =
      (rows, ApiResult.ok (Nat.repr rows.length ++ " lignes reçues.")) := by
    intro s
    unfold receive_releases
    rw [if_neg (by simp [ha])]
    simp only [_attach_ids, hrows]
  rw [hgen, hgen]

/-- C7 witness: the theorem applied to a concrete two-row payload. -/
theorem c7_witness :
    authOk (some "Bearer my_secret_key") = true ∧
    (∀ v ∈ [JVal.obj [("__id", Value.str "a")], JVal.obj []], v ≠ JVal.nonObj) ∧
    receive_releases ((receive_releases [] (some "Bearer my_secret_key")
        (Json.arr [JVal.obj [("__id", Value.str "a")], JVal.obj []])).1)
        (some "Bearer my_secret_key")
        (Json.arr [JVal.obj [("__id", Value.str "a")], JVal.obj []]) =
      receive_releases [] (some "Bearer my_secret_key")
        (Json.arr [JVal.obj [("__id", Value.str "a")], JVal.obj []]) :=
  ⟨by decide, by decide, c7_ingest_idempotent [] (some "Bearer my_secret_key")
    [JVal.obj [("__id", Value.str "a")], JVal.obj []] (by decide) (by decide)⟩

/-!
## C10: fixed order of the patch-request checks
-/

/-- C10: the patch endpoint applies its checks in the fixed order
authorization (401), blank-field validation (400), editable-field
allow-list (403), then identifier resolution (404).  The 401/400/403
outcomes are stated for every store and every requested identifier, so
whether the identifier resolves never affects them; the 404 outcome only
arises once the three earlier checks pass. -/
theorem c10_patch_error_precedence (ec : Option (List String)) (store : List Row)
    (rid : String) (a : Option String) (f : Option String) (v : Value) :
    (authOk a = false →
      patch_cell ec store rid a f v = (store, ApiResult.clientError 401 "Unauthorized")) ∧
    (authOk a = true → pyStrip (f.getD "") = "" →
      patch_cell ec store rid a f v = (store, ApiResult.clientError 400 "Missing 'field'")) ∧
    (authOk a = true → pyStrip (f.getD "") ≠ "" →
      ecBlocks ec (pyStrip (f.getD "")) = true →
      patch_cell ec store rid a f v = (store, ApiResult.clientError 403
        ("Field '" ++ pyStrip (f.getD "") ++ "' not editable"))) ∧
    (authOk a = true → pyStrip (f.getD "") ≠ "" →
      ecBlocks ec (pyStrip (f.getD "")) = false →
      find_idx_by_id store rid = none →
      patch_cell ec store rid a f v = (store, ApiResult.clientError 404
        ("Row '" ++ rid ++ "' not found. Known sample: "
          ++ String.intercalate ", " ((list_ids store).take 5)))) := by
  refine ⟨?_, ?_, ?_, ?_⟩
  · intro h
    unfold patch_cell
    rw [if_pos (by simp [h])]
  · intro h1 h2
    unfold patch_cell
    rw [if_neg (by simp [h1])]
    simp only [h2, if_pos]
  · intro h1 h2 h3
    unfold patch_cell
    rw [if_neg (by simp [h1])]
    simp only [if_neg h2, h3, if_pos]
  · intro h1 h2 h3 h4
    unfold patch_cell
    rw [if_neg (by simp [h1])]
    simp only [if_neg h2, h3, Bool.false_eq_true, if_false, h4]

/-- C10 witness: the four precedences at concrete requests — wrong token;
blank field with an unresolvable identifier (400, not 404); non-editable
field with an unresolvable identifier (403, not 404); and a well-formed
request for a missing identifier (404 with the sample). -/
theorem c10_witness :
    patch_cell none [] "nope" (some "Bearer wrong") (some "STATUS") Value.null =
      ([], ApiResult.clientError 401 "Unauthorized") ∧
    patch_cell none [] "nope" (some "Bearer my_secret_key") (some "  ") Value.null =
      ([], ApiResult.clientError 400 "Missing 'field'") ∧
    patch_cell (some ["Prod"]) [] "nope" (some "Bearer my_secret_key") (some "STATUS")
        Value.null =
      ([], ApiResult.clientError 403 "Field 'STATUS' not editable") ∧
    patch_cell none [[("__id", Value.str "a")]] "nope" (some "Bearer my_secret_key")
        (some "STATUS") Value.null =
      ([[("__id", Value.str "a")]], ApiResult.clientError 404
        "Row 'nope' not found. Known sample: a") := by
  refine ⟨?_, ?_, ?_, ?_⟩
  · exact (c10_patch_error_precedence none [] "nope" (some "Bearer wrong")
      (some "STATUS") Value.null).1 (by decide)
  · exact (c10_patch_error_precedence none [] "nope" (some "Bearer my_secret_key")
      (some "  ") Value.null).2.1 (by decide) (by decide)
  · exact (c10_patch_error_precedence (some ["Prod"]) [] "nope"
      (some "Bearer my_secret_key") (some "STATUS") Value.null).2.2.1
      (by decide) (by decide) (by decide)
  · have h := (c10_patch_error_precedence none [[("__id", Value.str "a")]] "nope"
      (some "Bearer my_secret_key") (some "STATUS") Value.null).2.2.2
      (by decide) (by decide) (by decide) (by decide)
    rw [h]
    decide

/-!
## C6: the resolve-by-identifier algorithm
-/

theorem strip_suffix_num_isSome_iff (q : String) (hq : pyStrip q = q) :
    (strip_suffix_num q).isSome = true ↔
      ∃ pre ds, q.data = pre ++ '-' :: ds ∧ ds ≠ [] ∧ ∀ c ∈ ds, c.isDigit = true := by
  unfold strip_suffix_num
  rw [hq]
  constructor
  · intro h
    by_cases hcond : q.data.reverse.takeWhile Char.isDigit ≠ [] ∧
        (q.data.reverse.dropWhile Char.isDigit).head? = some '-'
    · obtain ⟨hds, hdash⟩ := hcond
      have hdrop : q.data.reverse.dropWhile Char.isDigit =
          '-' :: (q.data.reverse.dropWhile Char.isDigit).tail := by
        cases hD : q.data.reverse.dropWhile Char.isDigit with
        | nil => rw [hD] at hdash; cases hdash
        | cons x t =>
          rw [hD] at hdash
          have hx : x = '-' := by simpa using hdash
          rw [hx]
          rfl
      refine ⟨(q.data.reverse.dropWhile Char.isDigit).tail.reverse,
        (q.data.reverse.takeWhile Char.isDigit).reverse, ?_, ?_, ?_⟩
      · have hq2 : q.data = q.data.reverse.reverse := (List.reverse_reverse q.data).symm
        rw [hq2]
        conv_lhs => rw [← List.takeWhile_append_dropWhile Char.isDigit q.data.reverse]
        rw [hdrop]
        simp [List.reverse_append]
      · simpa using hds
      · intro c hc
        rw [List.mem_reverse] at hc
        exact List.mem_takeWhile_imp hc
    · rw [if_neg hcond] at h
      cases h
  · rintro ⟨pre, ds, hq2, hds, hdig⟩
    have hlrev : q.data.reverse = ds.reverse ++ '-' :: pre.reverse := by
      rw [hq2]
      simp [List.reverse_append]
    have hdigrev : ∀ c ∈ ds.reverse, Char.isDigit c = true := by
      intro c hc
      exact hdig c (List.mem_reverse.1 hc)
    have htake : q.data.reverse.takeWhile Char.isDigit = ds.reverse ++ [] := by
      rw [hlrev, List.takeWhile_append_of_pos hdigrev, List.takeWhile_cons_of_neg (by decide)]
    have hdrop2 : q.data.reverse.dropWhile Char.isDigit = '-' :: pre.reverse := by
      rw [hlrev, List.dropWhile_append_of_pos hdigrev, List.dropWhile_cons_of_neg (by decide)]
    rw [if_pos ⟨by simpa [htake] using hds, by rw [hdrop2]; rfl⟩]
    rfl

theorem find_row_by_id_eq (store : List Row) (rid : String) :
    find_row_by_id store rid =
      match store.find? (fun row => row_id row == normalize_id rid) with
      | some row => some row
      | none =>
        match strip_suffix_num (normalize_id rid) with
        | some base =>
          if base ≠ "" then store.find? (fun row => row_id row == base) else none
        | none => none := rfl

/-- C6 (amended): the resolver trims the request, returns the first row in
stored order whose probed trimmed identifier equals it exactly; failing
that, when the request ends in `-<digits>` it strips that one numeric
suffix and — only when the stripped base is non-empty (Python `if base:`)
— returns the first row whose identifier equals the base; otherwise it
reports not found, and the read endpoint's 404 carries the first 5 known
identifiers.  A request whose base strips to the empty string is reported
not found even when a stored row's identifier is the empty string. -/
theorem c6_resolver_algorithm (store : List Row) (rid : String) :
    (∀ r, store.find? (fun row => row_id row == normalize_id rid) = some r →
      find_row_by_id store rid = some r) ∧
    (store.find? (fun row => row_id row == normalize_id rid) = none →
      ∀ b, strip_suffix_num (normalize_id rid) = some b → b ≠ "" →
        find_row_by_id store rid = store.find? (fun row => row_id row == b)) ∧
    (store.find? (fun row => row_id row == normalize_id rid) = none →
      strip_suffix_num (normalize_id rid) = none ∨
        strip_suffix_num (normalize_id rid) = some "" →
      find_row_by_id store rid = none) ∧
    (find_row_by_id store rid = none →
      get_row store rid = Except.error (rid, (store.map row_id).take 5)) ∧
    ((strip_suffix_num (normalize_id rid)).isSome = true ↔
      ∃ pre ds, (normalize_id rid).data = pre ++ '-' :: ds ∧ ds ≠ [] ∧
        ∀ c ∈ ds, c.isDigit = true) := by
  refine ⟨?_, ?_, ?_, ?_, ?_⟩
  · intro r h
    rw [find_row_by_id_eq, h]
  · intro h b hb hbne
    rw [find_row_by_id_eq, h, hb]
    show (if b ≠ "" then store.find? (fun row => row_id row == b) else none) =
      store.find? (fun row => row_id row == b)
    rw [if_pos hbne]
  · intro h hor
    rw [find_row_by_id_eq, h]
    rcases hor with h2 | h2
    · rw [h2]
    · rw [h2]
      show (if ("" : String) ≠ "" then store.find? (fun row => row_id row == "") else none) =
        none
      rw [if_neg (by simp)]
  · intro h
    unfold get_row
    rw [h]
    rfl
  · exact strip_suffix_num_isSome_iff (normalize_id rid) (pyStrip_idem rid)

/-- C6 counterexample: the request `-5` ends in `-<digits>` and its
stripped base is the empty string; the store holds a row whose probed
identifier is exactly that base, yet the resolver reports not found
(`if base:` skips the fallback for a falsy base) instead of returning the
first row matching the base. -/
theorem c6_counterexample :
    strip_suffix_num "-5" = some "" ∧
    row_id [("__id", Value.str "")] = "" ∧
    find_row_by_id [[("__id", Value.str "")]] "-5" = none := by decide

/-- C6 witness: the amended algorithm at concrete requests — exact match
takes precedence over the suffix fallback; the fallback retrieves the base
row; an unresolvable request yields the 404 sample. -/
theorem c6_witness :
    find_row_by_id [[("__id", Value.str "a")], [("__id", Value.str "a-3")]] " a-3 " =
      some [("__id", Value.str "a-3")] ∧
    find_row_by_id [[("__id", Value.str "a")], [("__id", Value.str "a-3")]] "a-7" =
      some [("__id", Value.str "a")] ∧
    get_row [[("__id", Value.str "a")]] "zzz" = Except.error ("zzz", ["a"]) := by
  refine ⟨?_, ?_, ?_⟩
  · have h := (c6_resolver_algorithm
      [[("__id", Value.str "a")], [("__id", Value.str "a-3")]] " a-3 ").1
      [("__id", Value.str "a-3")] (by decide)
    rw [h]
  · have h := (c6_resolver_algorithm
      [[("__id", Value.str "a")], [("__id", Value.str "a-3")]] "a-7").2.1
      (by decide) "a" (by decide) (by decide)
    rw [h]
    decide
  · have h3 := (c6_resolver_algorithm [[("__id", Value.str "a")]] "zzz").2.2.1
      (by decide) (Or.inl (by decide))
    have h4 := (c6_resolver_algorithm [[("__id", Value.str "a")]] "zzz").2.2.2.1 h3
    rw [h4]
    rfl

/-!
## C3: retrieving the first occurrence of a duplicate group
-/

theorem find?_eq_getElem_of_first (l : List α) (p : α → Bool) :
    ∀ (i : Nat) (hi : i < l.length), p l[i] = true →
      (∀ j, j < i → ∀ x, l[j]? = some x → p x = false) → l.find? p = some l[i] := by
  induction l with
  | nil => intro i hi; simp at hi
  | cons a t ih =>
    intro i hi hp hprev
    cases i with
    | zero =>
      have hpa : p a = true := hp
      rw [List.find?_cons_of_pos _ hpa]
      rw [List.getElem_cons_zero]
    | succ n =>
      have hpa : p a = false := hprev 0 (by omega) a (by simp)
      rw [List.find?_cons_of_neg _ (by simp [hpa])]
      have hn : n < t.length := by
        have := hi
        simp at this
        omega
      have hp2 : p t[n] = true := by
        have h9 : (a :: t)[n + 1] = t[n] := List.getElem_cons_succ a t n hi
        rw [← h9]
        exact hp
      have hprev2 : ∀ j, j < n → ∀ x, t[j]? = some x → p x = false := by
        intro j hj x hx
        exact hprev (j + 1) (by omega) x (by rw [← hx]; exact List.getElem?_cons_succ)
      rw [ih n hn hp2 hprev2, List.getElem_cons_succ]

theorem dedupIds_length (ids : List String) : (dedupIds ids).length = ids.length := by
  unfold dedupIds
  split
  · rfl
  · simp [List.enum_length]

theorem dedupIds_getElem? (ids : List String) (hnd : ¬ ids.Nodup) (j : Nat)
    (hj : j < ids.length) : (dedupIds ids)[j]? = some (renameDup ids (j, ids[j])) := by
  unfold dedupIds
  rw [if_neg hnd]
  rw [List.getElem?_eq_getElem (by simp [List.enum_length]; exact hj)]
  congr 1
  rw [List.getElem_map]
  congr 1
  exact List.getElem_enum ids j (by simpa [List.enum_length] using hj)

theorem append_dash_ne_empty (d : String) (t : String) : d ++ "-" ++ t ≠ "" := by
  intro h
  have := congrArg String.data h
  rw [data_append_dash] at this
  simp at this

theorem dedupIds_trimmed (ids : List String) (Htrim : ∀ x ∈ ids, pyStrip x = x ∧ x ≠ "") :
    ∀ x ∈ dedupIds ids, pyStrip x = x ∧ x ≠ "" := by
  unfold dedupIds
  split
  · exact Htrim
  · intro x hx
    rcases List.mem_map.1 hx with ⟨p, hp, he⟩
    have hmem : p.2 ∈ ids := by
      have h7 := List.mem_enum_iff_getElem?.1 hp
      exact List.getElem?_mem h7
    rw [← he]
    unfold renameDup
    split
    · obtain ⟨htr, hne⟩ := Htrim p.2 hmem
      refine ⟨pyStrip_append_dash_repr p.2 htr _, append_dash_ne_empty _ _⟩
    · exact Htrim p.2 hmem

theorem dash_zero_merge (d : String) : d ++ "-" ++ Nat.repr 0 = d ++ "-0" := by
  apply String.ext
  rw [data_append_dash]
  rw [String.data_append]
  rfl

theorem row_id_single (s : String) (htr : pyStrip s = s) (hne : s ≠ "") :
    row_id [("__id", Value.str s)] = s :=
  row_id_of_storedId [("__id", Value.str s)] s rfl hne htr

theorem setKey_single_id (s : String) :
    setKey [("__id", Value.str s)] "__id" (Value.str s) = [("__id", Value.str s)] := by
  unfold setKey
  rw [if_pos (by simp)]
  simp

theorem attach_single_ids : ∀ (ss : List String) (i : Nat),
    (∀ s ∈ ss, pyStrip s = s ∧ s ≠ "") →
      attachIdsFrom (ss.map (fun s => JVal.obj [("__id", Value.str s)])) i =
        Except.ok (ss.map (fun s => [("__id", Value.str s)])) := by
  intro ss
  induction ss with
  | nil => intro i _; rfl
  | cons s rest ih =>
    intro i h
    obtain ⟨htr, hne⟩ := h s (List.mem_cons_self s rest)
    have hrid : row_id [("__id", Value.str s)] = s := row_id_single s htr hne
    rw [List.map_cons]
    simp only [attachIdsFrom, hrid]
    rw [if_pos (by simpa using hne)]
    rw [ih (i + 1) (fun x hx => h x (List.mem_cons_of_mem s hx))]
    simp only [Except.map]
    rw [setKey_single_id]
    rfl

/-- C3 (amended): after de-duplication, every member of a duplicate group
carries a suffix, the first occurrence carrying `-0`; on a dedup-safe batch
of trimmed non-empty identifiers, POSTing the de-duplicated batch and then
requesting `<base>-0` resolves (by exact match) to the first occurrence of
the group in stored order.  The un-suffixed base form does not resolve to
it: the suffix-stripping fallback applies to the requested identifier, not
to stored ones (see the counterexample). -/
theorem c3_first_occurrence_retrievable (ids : List String) (d : String) (i0 : Nat)
    (H : DedupSafe ids) (Htrim : ∀ x ∈ ids, pyStrip x = x ∧ x ≠ "")
    (hd : 2 ≤ idCount ids d) (hi0 : i0 < ids.length) (hfirst : ids[i0] = d)
    (hprev : ∀ j, j < i0 → ∀ (hj : j < ids.length), ids[j] ≠ d) :
    (dedupIds ids)[i0]? = some (d ++ "-0") ∧
    ((receive_releases [] (some ("Bearer " ++ API_KEY))
        (Json.arr ((dedupIds ids).map (fun s => JVal.obj [("__id", Value.str s)])))).1)[i0]? =
      some [("__id", Value.str (d ++ "-0"))] ∧
    find_row_by_id
      ((receive_releases [] (some ("Bearer " ++ API_KEY))
        (Json.arr ((dedupIds ids).map (fun s => JVal.obj [("__id", Value.str s)])))).1)
      (d ++ "-0") = some [("__id", Value.str (d ++ "-0"))] := by
  have hdc : 2 ≤ ids.count d := hd
  have hdmem : d ∈ ids := List.count_pos_iff.1 (by omega)
  obtain ⟨hdtrim, hdne⟩ := Htrim d hdmem
  have hnd : ¬ ids.Nodup := by
    intro hnodup
    have := List.nodup_iff_count_le_one.1 hnodup d
    omega
  have hcount0 : (ids.take i0).count d = 0 := by
    rw [List.count_eq_zero]
    intro hmem2
    rcases List.getElem_of_mem hmem2 with ⟨j, hj, hje⟩
    have hjlen : j < ids.length := by
      have h9 := hj
      rw [List.length_take] at h9
      omega
    have hji : j < i0 := by
      have h9 := hj
      rw [List.length_take] at h9
      omega
    have h8 : (ids.take i0)[j] = ids[j] := List.getElem_take ids
    rw [h8] at hje
    exact hprev j hji hjlen hje
  have hpost_i0 : (dedupIds ids)[i0]? = some (d ++ "-0") := by
    rw [dedupIds_getElem? ids hnd i0 hi0]
    unfold renameDup
    simp only [hfirst, idCount]
    rw [if_pos hdc, hcount0]
    rw [dash_zero_merge]
  have hq2 : pyStrip (d ++ "-0") = d ++ "-0" := by
    rw [← dash_zero_merge]
    exact pyStrip_append_dash_repr d hdtrim 0
  have hne2 : d ++ "-0" ≠ "" := by
    rw [← dash_zero_merge]
    exact append_dash_ne_empty d _
  have hptrim := dedupIds_trimmed ids Htrim
  have hstore : (receive_releases [] (some ("Bearer " ++ API_KEY))
      (Json.arr ((dedupIds ids).map (fun s => JVal.obj [("__id", Value.str s)])))).1 =
      (dedupIds ids).map (fun s => [("__id", Value.str s)]) := by
    unfold receive_releases
    rw [if_neg (by decide)]
    simp only [_attach_ids]
    rw [attach_single_ids (dedupIds ids) 0 hptrim]
  have hstore_i0 : ((receive_releases [] (some ("Bearer " ++ API_KEY))
      (Json.arr ((dedupIds ids).map (fun s => JVal.obj [("__id", Value.str s)])))).1)[i0]? =
      some [("__id", Value.str (d ++ "-0"))] := by
    rw [hstore, List.getElem?_map, hpost_i0]
    rfl
  refine ⟨hpost_i0, hstore_i0, ?_⟩
  rw [hstore]
  have hfind : ((dedupIds ids).map (fun s => [("__id", Value.str s)])).find?
      (fun row => row_id row == normalize_id (d ++ "-0")) =
      some [("__id", Value.str (d ++ "-0"))] := by
    have hqn : normalize_id (d ++ "-0") = d ++ "-0" := hq2
    rw [hqn]
    have hlen : i0 < ((dedupIds ids).map (fun s => [("__id", Value.str s)])).length := by
      rw [List.length_map, dedupIds_length]
      exact hi0
    have hgeti0q : ((dedupIds ids).map (fun s => [("__id", Value.str s)]))[i0]? =
        some [("__id", Value.str (d ++ "-0"))] := by
      rw [List.getElem?_map, hpost_i0]
      rfl
    have hgeti0 : ((dedupIds ids).map (fun s => [("__id", Value.str s)]))[i0] =
        [("__id", Value.str (d ++ "-0"))] := by
      have h2 := List.getElem?_eq_getElem hlen
      rw [hgeti0q] at h2
      exact (Option.some_inj.1 h2).symm
    have hmain := find?_eq_getElem_of_first
      ((dedupIds ids).map (fun s => [("__id", Value.str s)]))
      (fun row => row_id row == (d ++ "-0")) i0 hlen ?hpi ?hprevi
    · rw [hmain, hgeti0]
    case hpi =>
      rw [hgeti0]
      show (row_id [("__id", Value.str (d ++ "-0"))] == d ++ "-0") = true
      rw [row_id_single (d ++ "-0") hq2 hne2]
      simp
    case hprevi =>
      intro j hji0 x hx
      have hjlen : j < ids.length := lt_trans hji0 hi0
      have hpostj : (dedupIds ids)[j]? = some (renameDup ids (j, ids[j])) :=
        dedupIds_getElem? ids hnd j hjlen
      have hxval : [("__id", Value.str (renameDup ids (j, ids[j])))] = x := by
        rw [List.getElem?_map, hpostj] at hx
        simpa using hx
      have hmemj : renameDup ids (j, ids[j]) ∈ dedupIds ids := List.getElem?_mem hpostj
      obtain ⟨htrj, hnej⟩ := hptrim _ hmemj
      rw [← hxval]
      show (row_id [("__id", Value.str (renameDup ids (j, ids[j])))] == d ++ "-0") = false
      rw [row_id_single _ htrj hnej, beq_eq_false_iff_ne]
      intro heq
      rw [← dash_zero_merge] at heq
      by_cases hcj : 2 ≤ idCount ids ids[j]
      · rw [renameDup, if_pos hcj] at heq
        obtain ⟨he1, he2⟩ := append_dash_repr_cancel heq
        exact hprev j hji0 hjlen he1
      · rw [renameDup, if_neg hcj] at heq
        have hmem2 : ids[j] ∈ ids := List.getElem_mem hjlen
        have hc1 : idCount ids ids[j] = 1 := by
          have h6 := List.count_pos_iff.2 hmem2
          simp only [idCount] at hcj ⊢
          omega
        exact H ids[j] hmem2 hc1 d hdmem hd 0 (by omega) heq
  rw [find_row_by_id_eq, hfind]

/-- C3 counterexample: the batch `["a", "a"]` de-duplicates to
`["a-0", "a-1"]`; after ingesting it, requesting the un-suffixed base `"a"`
does not resolve at all — there is no exact match and `"a"` carries no
numeric suffix to strip — contradicting the claim that the base form
resolves to the first occurrence via the suffix-stripping fallback. -/
theorem c3_counterexample :
    dedupIds ["a", "a"] = ["a-0", "a-1"] ∧
    (receive_releases [] (some "Bearer my_secret_key")
        (Json.arr ((dedupIds ["a", "a"]).map (fun s => JVal.obj [("__id", Value.str s)])))).1 =
      [[("__id", Value.str "a-0")], [("__id", Value.str "a-1")]] ∧
    find_row_by_id [[("__id", Value.str "a-0")], [("__id", Value.str "a-1")]] "a" =
      none := by decide

/-- C3 witness: the amended theorem at the batch `["a", "a"]`: the first
occurrence becomes `"a-0"` and is retrieved by that suffixed identifier. -/
theorem c3_witness :
    (dedupIds ["a", "a"])[0]? = some "a-0" ∧
    find_row_by_id ((receive_releases [] (some ("Bearer " ++ API_KEY))
        (Json.arr ((dedupIds ["a", "a"]).map (fun s => JVal.obj [("__id", Value.str s)])))).1)
      "a-0" = some [("__id", Value.str "a-0")] := by
  have h := c3_first_occurrence_retrievable ["a", "a"] "a" 0 (by decide) (by decide)
    (by decide) (by decide) (by decide) (fun j hj hjl => absurd hj (by omega))
  have hs : "a" ++ "-0" = "a-0" := by decide
  rw [hs] at h
  exact ⟨h.1, h.2.2⟩

/-!
## C9: shape and determinism of the composite identifier
-/

theorem beBytes_length (n x : Nat) : (beBytes n x).length = n := by
  simp [beBytes]

theorem beBytes_lt (n x : Nat) : ∀ b ∈ beBytes n x, b < 256 := by
  intro b hb
  rcases List.mem_map.1 hb with ⟨i, _, he⟩
  rw [← he]
  exact Nat.mod_lt _ (by omega)

theorem sha1Digest_length (msg : List Nat) : (sha1Digest msg).length = 20 := by
  unfold sha1Digest
  simp [beBytes_length]

theorem sha1Digest_lt (msg : List Nat) : ∀ b ∈ sha1Digest msg, b < 256 := by
  intro b hb
  unfold sha1Digest at hb
  simp only [List.mem_append] at hb
  rcases hb with ((((h | h) | h) | h) | h) <;> exact beBytes_lt 4 _ b h

theorem hexDigitChar_mem (m : Nat) (h : m < 16) :
    hexDigitChar m ∈ ("0123456789abcdef" : String).data := by
  interval_cases m <;> decide

theorem hexpairs_length (l : List Nat) :
    ((l.map (fun b => [hexDigitChar (b / 16), hexDigitChar (b % 16)])).flatten).length =
      2 * l.length := by
  induction l with
  | nil => rfl
  | cons b t ih =>
    rw [List.map_cons, List.flatten_cons, List.length_append, ih]
    simp
    omega

theorem string_mk_data (l : List Char) : (String.mk l).data = l := rfl

theorem sha1Hex_length (s : String) : (sha1Hex s).data.length = 40 := by
  unfold sha1Hex
  rw [string_mk_data, hexpairs_length, sha1Digest_length]

theorem sha1Hex_chars (s : String) :
    ∀ ch ∈ (sha1Hex s).data, ch ∈ ("0123456789abcdef" : String).data := by
  intro ch hch
  unfold sha1Hex at hch
  rw [string_mk_data] at hch
  rcases List.mem_flatten.1 hch with ⟨pair, hpair, hin⟩
  rcases List.mem_map.1 hpair with ⟨b, hb, he⟩
  have hblt : b < 256 := sha1Digest_lt (utf8Bytes s) b hb
  rw [← he] at hin
  rcases List.mem_cons.1 hin with rfl | hin2
  · exact hexDigitChar_mem (b / 16) (by omega)
  · rcases List.mem_cons.1 hin2 with rfl | hin3
    · exact hexDigitChar_mem (b % 16) (Nat.mod_lt _ (by omega))
    · cases hin3

/-- The three `str(row.get(col, "")) if col else ""` parts of `make_id`. -/
def partStr (o : Option String) (row : Row) : String :=
  match o with
  | some c => if c ≠ "" then (rowGetD row c (Value.str "")).toPyStr else ""
  | none => ""

/-- C9: the composite derivation is deterministic — equal tables yield
equal `__id` sequences — and every derived identifier has the shape
`<application-or-"x">-<version-or-"na">-<fingerprint>` where the
fingerprint is the first 10 characters of the 40-hex-character SHA-1
digest of the whitespace-trimmed Application, Version and
Category-or-Scope parts joined by `|`: 10 characters, all lowercase
hexadecimal. -/
theorem c9_make_id_deterministic_and_shaped (app ver sc : Option String) (row : Row)
    (t t2 : Table) (hc : t.cols = t2.cols) (hr : t.rows = t2.rows) :
    makeIdsForTable t = makeIdsForTable t2 ∧
    ∃ fp, make_id app ver sc row =
        orStr (partStr app row) "x" ++ "-" ++ orStr (partStr ver row) "na" ++ "-" ++ fp ∧
      fp = pyTake (sha1Hex (pyStrip (partStr app row) ++ "|" ++
        pyStrip (partStr ver row) ++ "|" ++ pyStrip (partStr sc row))) 10 ∧
      (sha1Hex (pyStrip (partStr app row) ++ "|" ++
        pyStrip (partStr ver row) ++ "|" ++ pyStrip (partStr sc row))).data.length = 40 ∧
      fp.data.length = 10 ∧
      ∀ ch ∈ fp.data, ch ∈ ("0123456789abcdef" : String).data := by
  constructor
  · cases t with
    | mk cols rows =>
      cases t2 with
      | mk cols2 rows2 =>
        simp only at hc hr
        rw [show (⟨cols, rows⟩ : Table) = ⟨cols2, rows2⟩ by rw [hc, hr]]
  · refine ⟨pyTake (sha1Hex (pyStrip (partStr app row) ++ "|" ++
      pyStrip (partStr ver row) ++ "|" ++ pyStrip (partStr sc row))) 10, rfl, rfl, ?_, ?_, ?_⟩
    · exact sha1Hex_length _
    · show ((sha1Hex _).data.take 10).length = 10
      rw [List.length_take, sha1Hex_length]
      decide
    · intro ch hch
      have hch2 : ch ∈ (sha1Hex (pyStrip (partStr app row) ++ "|" ++
          pyStrip (partStr ver row) ++ "|" ++ pyStrip (partStr sc row))).data :=
        List.mem_of_mem_take hch
      exact sha1Hex_chars _ ch hch2

/-- C9 witness: the theorem at a concrete row and table. -/
theorem c9_witness :
    makeIdsForTable ⟨["Application"], [[Value.str "A"]]⟩ =
      makeIdsForTable ⟨["Application"], [[Value.str "A"]]⟩ ∧
    ∃ fp, make_id (some "Application") none none [("Application", Value.str "A")] =
        orStr (partStr (some "Application") [("Application", Value.str "A")]) "x" ++ "-" ++
          orStr (partStr none [("Application", Value.str "A")]) "na" ++ "-" ++ fp ∧
      fp = pyTake (sha1Hex (pyStrip (partStr (some "Application")
            [("Application", Value.str "A")]) ++ "|" ++
          pyStrip (partStr none [("Application", Value.str "A")]) ++ "|" ++
          pyStrip (partStr none [("Application", Value.str "A")]))) 10 ∧
      (sha1Hex (pyStrip (partStr (some "Application")
            [("Application", Value.str "A")]) ++ "|" ++
          pyStrip (partStr none [("Application", Value.str "A")]) ++ "|" ++
          pyStrip (partStr none [("Application", Value.str "A")]))).data.length = 40 ∧
      fp.data.length = 10 ∧
      ∀ ch ∈ fp.data, ch ∈ ("0123456789abcdef" : String).data :=
  c9_make_id_deterministic_and_shaped (some "Application") none none
    [("Application", Value.str "A")] ⟨["Application"], [[Value.str "A"]]⟩
    ⟨["Application"], [[Value.str "A"]]⟩ rfl rfl

/-!
## C8: supporting lemmas for column reconciliation
-/

theorem getD_set_self (r : List Value) (i : Nat) (v : Value) (hi : i < r.length) :
    (r.set i v).getD i Value.null = v := by
  rw [List.getD_eq_getElem?_getD, List.getElem?_set_self hi]
  rfl

theorem getD_set_ne (r : List Value) (i j : Nat) (v : Value) (h : i ≠ j) :
    (r.set i v).getD j Value.null = r.getD j Value.null := by
  rw [List.getD_eq_getElem?_getD, List.getElem?_set_ne h, ← List.getD_eq_getElem?_getD]

theorem getD_insertIdx_self (r : List Value) (pos : Nat) (v : Value) (h : pos ≤ r.length) :
    (r.insertIdx pos v).getD pos Value.null = v := by
  rw [List.getD_eq_getElem?_getD]
  have hlen : pos < (r.insertIdx pos v).length := by
    rw [List.length_insertIdx pos r h]
    omega
  rw [List.getElem?_eq_getElem hlen, List.getElem_insertIdx_self r v pos h]
  rfl

theorem map_getD_zipWith_set (i : Nat) : ∀ (rows : List (List Value)) (vs : List Value),
    (∀ r ∈ rows, i < r.length) → vs.length = rows.length →
      (List.zipWith (fun r v => r.set i v) rows vs).map (fun r => r.getD i Value.null) =
        vs := by
  intro rows
  induction rows with
  | nil =>
    intro vs _ hlen
    rw [List.eq_nil_of_length_eq_zero hlen]
    rfl
  | cons r rest ih =>
    intro vs hall hlen
    cases vs with
    | nil => simp at hlen
    | cons v vt =>
      rw [List.zipWith_cons_cons, List.map_cons]
      rw [getD_set_self r i v (hall r (List.mem_cons_self r rest))]
      rw [ih vt (fun r2 h2 => hall r2 (List.mem_cons_of_mem _ h2)) (by simpa using hlen)]

theorem map_getD_zipWith_set_ne (i j : Nat) (hij : j ≠ i) :
    ∀ (rows : List (List Value)) (vs : List Value), vs.length = rows.length →
      (List.zipWith (fun r v => r.set i v) rows vs).map (fun r => r.getD j Value.null) =
        rows.map (fun r => r.getD j Value.null) := by
  intro rows
  induction rows with
  | nil => intro vs _; rfl
  | cons r rest ih =>
    intro vs hlen
    cases vs with
    | nil => simp at hlen
    | cons v vt =>
      rw [List.zipWith_cons_cons, List.map_cons, List.map_cons]
      rw [getD_set_ne r i j v (fun he => hij he.symm)]
      rw [ih vt (by simpa using hlen)]

theorem indexOf_insertIdx_self (l : List String) (x : String) :
    ∀ (pos : Nat), x ∉ l → pos ≤ l.length → (l.insertIdx pos x).indexOf x = pos := by
  induction l with
  | nil =>
    intro pos _ hpos
    have h0 : pos = 0 := by simpa using hpos
    subst h0
    rw [List.insertIdx_zero]
    exact List.indexOf_cons_self x []
  | cons a t ih =>
    intro pos hx hpos
    cases pos with
    | zero =>
      rw [List.insertIdx_zero]
      exact List.indexOf_cons_self x (a :: t)
    | succ n =>
      rw [List.insertIdx_succ_cons]
      have hax : a ≠ x := fun he => hx (he ▸ List.mem_cons_self a t)
      rw [List.indexOf_cons_ne _ hax]
      rw [ih n (fun hm => hx (List.mem_cons_of_mem a hm)) (by simpa using hpos)]

theorem lowerToOrig_mem (cols : List String) (key c : String)
    (h : lowerToOrig cols key = some c) : c ∈ cols ∧ lowerKey c = key := by
  unfold lowerToOrig at h
  rcases List.getLast?_eq_some_iff.1 h with ⟨ys, hys⟩
  have hmem : c ∈ cols.filter (fun x => lowerKey x == key) := by
    rw [hys]
    simp
  have h2 := List.mem_filter.1 hmem
  exact ⟨h2.1, by simpa using h2.2⟩

theorem optTruthy_some (o : Option String) (h : optTruthy o = true) :
    o = some (o.getD "") := by
  cases o with
  | none => cases h
  | some s => rfl

theorem category_not_mem (cols : List String)
    (h : optTruthy (lowerToOrig cols "category") = false) : "Category" ∉ cols := by
  intro hmem
  have hfmem : "Category" ∈ cols.filter (fun x => lowerKey x == "category") :=
    List.mem_filter.2 ⟨hmem, by decide⟩
  cases hlast : (cols.filter (fun x => lowerKey x == "category")).getLast? with
  | none =>
    rw [List.getLast?_eq_none_iff] at hlast
    rw [hlast] at hfmem
    cases hfmem
  | some c =>
    have hop : optTruthy (some c) = false := by
      unfold lowerToOrig at h
      rw [hlast] at h
      exact h
    have hce : c = "" := by simpa [optTruthy] using hop
    have hc := lowerToOrig_mem cols "category" c (by unfold lowerToOrig; exact hlast)
    rw [hce] at hc
    exact absurd hc.2 (by decide)

/-- C8: the `Category`/`Scope` reconciliation, for tables whose rows all
have one cell per column.  (a) With both columns present (case-insensitive,
stripped match; Python truthiness), the column list is unchanged and the
category column becomes, cell by cell, the old category where it was
non-missing with a non-empty string form, else the scope cell, while every
other column position is untouched.  (b) With only `Scope` present, a
`Category` column equal to the scope column is inserted immediately after
`Scope`'s position, the other columns keeping their relative order.
(c) Without a truthy `Scope` candidate the table is unchanged. -/
theorem c8_column_reconciliation (t : Table)
    (hWF : ∀ r ∈ t.rows, r.length = t.cols.length) :
    (optTruthy (lowerToOrig t.cols "category") = true →
      optTruthy (lowerToOrig t.cols "scope") = true →
      (reconcileCategoryScope t).cols = t.cols ∧
      getCol (reconcileCategoryScope t) ((lowerToOrig t.cols "category").getD "") =
        List.zipWith (fun cv sv => if ¬ cv.isNA ∧ cv.toPyStr ≠ "" then cv else sv)
          (getCol t ((lowerToOrig t.cols "category").getD ""))
          (getCol t ((lowerToOrig t.cols "scope").getD "")) ∧
      (∀ j, j ≠ t.cols.indexOf ((lowerToOrig t.cols "category").getD "") →
        (reconcileCategoryScope t).rows.map (fun r => r.getD j Value.null) =
          t.rows.map (fun r => r.getD j Value.null))) ∧
    (optTruthy (lowerToOrig t.cols "scope") = true →
      optTruthy (lowerToOrig t.cols "category") = false →
      (reconcileCategoryScope t).cols =
        t.cols.insertIdx (t.cols.indexOf ((lowerToOrig t.cols "scope").getD "") + 1)
          "Category" ∧
      getCol (reconcileCategoryScope t) "Category" =
        getCol t ((lowerToOrig t.cols "scope").getD "")) ∧
    (optTruthy (lowerToOrig t.cols "scope") = false →
      reconcileCategoryScope t = t) := by
  refine ⟨?_, ?_, ?_⟩
  · intro hcat hsc
    have hbr : reconcileCategoryScope t = setCol t ((lowerToOrig t.cols "category").getD "")
        (List.zipWith (fun cv sv => if ¬ cv.isNA ∧ cv.toPyStr ≠ "" then cv else sv)
          (getCol t ((lowerToOrig t.cols "category").getD ""))
          (getCol t ((lowerToOrig t.cols "scope").getD ""))) := by
      simp only [reconcileCategoryScope]
      rw [if_pos ⟨hcat, hsc⟩]
    have hcmem : (lowerToOrig t.cols "category").getD "" ∈ t.cols :=
      (lowerToOrig_mem t.cols "category" _ (optTruthy_some _ hcat)).1
    have hidx : t.cols.indexOf ((lowerToOrig t.cols "category").getD "") < t.cols.length :=
      List.indexOf_lt_length.2 hcmem
    have hvslen : (List.zipWith (fun cv sv => if ¬ cv.isNA ∧ cv.toPyStr ≠ "" then cv else sv)
        (getCol t ((lowerToOrig t.cols "category").getD ""))
        (getCol t ((lowerToOrig t.cols "scope").getD ""))).length = t.rows.length := by
      simp [getCol]
    refine ⟨by rw [hbr]; rfl, ?_, ?_⟩
    · rw [hbr]
      show (List.zipWith (fun r v => r.set (t.cols.indexOf
          ((lowerToOrig t.cols "category").getD "")) v) t.rows _).map
          (fun r => r.getD (t.cols.indexOf ((lowerToOrig t.cols "category").getD ""))
            Value.null) = _
      exact map_getD_zipWith_set _ t.rows _
        (fun r hr => by rw [hWF r hr]; exact hidx) hvslen
    · intro j hj
      rw [hbr]
      show (List.zipWith (fun r v => r.set (t.cols.indexOf
          ((lowerToOrig t.cols "category").getD "")) v) t.rows _).map
          (fun r => r.getD j Value.null) = _
      exact map_getD_zipWith_set_ne _ j hj t.rows _ hvslen
  · intro hsc hcat
    have hbr : reconcileCategoryScope t =
        { cols := t.cols.insertIdx
            (t.cols.indexOf ((lowerToOrig t.cols "scope").getD "") + 1) "Category",
          rows := t.rows.map (fun r => r.insertIdx
            (t.cols.indexOf ((lowerToOrig t.cols "scope").getD "") + 1)
            (r.getD (t.cols.indexOf ((lowerToOrig t.cols "scope").getD "")) Value.null)) } := by
      simp only [reconcileCategoryScope]
      rw [if_neg (by simp [hcat]), if_pos ⟨hsc, by simp [hcat]⟩]
    have hsmem : (lowerToOrig t.cols "scope").getD "" ∈ t.cols :=
      (lowerToOrig_mem t.cols "scope" _ (optTruthy_some _ hsc)).1
    have hsidx : t.cols.indexOf ((lowerToOrig t.cols "scope").getD "") < t.cols.length :=
      List.indexOf_lt_length.2 hsmem
    have hnotmem : "Category" ∉ t.cols := category_not_mem t.cols hcat
    have hpos : t.cols.indexOf ((lowerToOrig t.cols "scope").getD "") + 1 ≤ t.cols.length := by
      omega
    refine ⟨by rw [hbr], ?_⟩
    rw [hbr]
    unfold getCol
    simp only []
    rw [indexOf_insertIdx_self t.cols "Category" _ hnotmem hpos]
    rw [List.map_map]
    apply List.map_congr_left
    intro r hr
    show (r.insertIdx _ _).getD _ Value.null = _
    exact getD_insertIdx_self r _ _ (by rw [hWF r hr]; omega)
  · intro hsc
    simp only [reconcileCategoryScope]
    rw [if_neg (by simp [hsc]), if_neg (by simp [hsc])]

/-- C8 witness: the two spec scenarios — `[Scope, Status]` gains a
`Category` copy of `Scope` right after it; `[Category, Scope]` with
`Category = ["", "X"]`, `Scope = ["A", "B"]` reconciles `Category` to
`["A", "X"]` — plus the no-op case, all via the theorem. -/
theorem c8_witness :
    (reconcileCategoryScope ⟨["Scope", "Status"],
        [[Value.str "A", Value.str "ok"], [Value.str "B", Value.str "ko"]]⟩).cols =
      ["Scope", "Category", "Status"] ∧
    getCol (reconcileCategoryScope ⟨["Scope", "Status"],
        [[Value.str "A", Value.str "ok"], [Value.str "B", Value.str "ko"]]⟩) "Category" =
      [Value.str "A", Value.str "B"] ∧
    getCol (reconcileCategoryScope ⟨["Category", "Scope"],
        [[Value.str "", Value.str "A"], [Value.str "X", Value.str "B"]]⟩) "Category" =
      [Value.str "A", Value.str "X"] ∧
    (reconcileCategoryScope ⟨["Category", "Scope"],
        [[Value.str "", Value.str "A"], [Value.str "X", Value.str "B"]]⟩).cols =
      ["Category", "Scope"] ∧
    reconcileCategoryScope ⟨["Status"], [[Value.str "ok"]]⟩ = ⟨["Status"], [[Value.str "ok"]]⟩ := by
  refine ⟨?_, ?_, ?_, ?_, ?_⟩
  · have h := ((c8_column_reconciliation ⟨["Scope", "Status"],
        [[Value.str "A", Value.str "ok"], [Value.str "B", Value.str "ko"]]⟩
        (by decide)).2.1 (by decide) (by decide)).1
    rw [h]
    decide
  · have h := ((c8_column_reconciliation ⟨["Scope", "Status"],
        [[Value.str "A", Value.str "ok"], [Value.str "B", Value.str "ko"]]⟩
        (by decide)).2.1 (by decide) (by decide)).2
    rw [h]
    decide
  · have h := ((c8_column_reconciliation ⟨["Category", "Scope"],
        [[Value.str "", Value.str "A"], [Value.str "X", Value.str "B"]]⟩
        (by decide)).1 (by decide) (by decide)).2.1
    rw [show (lowerToOrig (⟨["Category", "Scope"],
        [[Value.str "", Value.str "A"], [Value.str "X", Value.str "B"]]⟩ : Table).cols
        "category").getD "" = "Category" from by decide] at h
    rw [h]
    decide
  · have h := ((c8_column_reconciliation ⟨["Category", "Scope"],
        [[Value.str "", Value.str "A"], [Value.str "X", Value.str "B"]]⟩
        (by decide)).1 (by decide) (by decide)).1
    rw [h]
  · exact (c8_column_reconciliation ⟨["Status"], [[Value.str "ok"]]⟩
      (by decide)).2.2 (by decide)
